import Mathlib

/-!
Verification of the WebGL capture transcoder core.

The development shallowly embeds the decode/encode core of the repository:
the draw-call selector `pickMainDrawCall`, the attribute classifier
(`findPositionAttrib`, `findNormalAttrib`, `findUvAttrib`), the scalar codec
(`bytesPerComponent`, `readScalar`, `normalizeInt`), the vertex decoder inside
`buildGltf` and `buildObj`, and the binary container packer `buildGlb`.

Modelling conventions:
* JavaScript numbers are idealized as exact rationals (`ℚ`); the IEEE-754
  rounding of stored `Float32Array` entries and of double arithmetic is not
  modelled.  NaN and the infinities are modelled where control flow depends
  on them (`JsNum` for the draw-call `count` field).
* The raw capture buffer is a byte length plus a byte function (`DataView`).
  A `DataView` read that would fall outside the buffer raises `RangeError`
  in JavaScript; the embedding returns `Except.error Err.rangeError` there.
  A typed-array or array allocation with a negative (or otherwise invalid)
  length also raises `RangeError`; the embedding returns
  `Except.error Err.invalidLength` for those, keeping the two JavaScript
  failure sites distinguishable, as their messages are.
* TypeScript optional numeric fields that the source coalesces with `|| 0`
  (attribute `offset`, draw `indexOffset`) or guards with truthiness tests
  that identify `0` and `undefined` (attribute `stride`) are modelled as a
  plain `Nat`, `0` standing for an absent field.  `elementArrayBufferId` is
  `Option Int` because the source distinguishes absence from `0` only through
  falsiness, which the eligibility test and the buffer lookup both apply.
* Array lengths are idealized as unbounded naturals: engine-specific caps
  (2^32 on `Array`, memory limits) are not modelled.
* `Array.prototype.sort` with the comparator `(a, b) => a.index - b.index` is
  a stable ascending sort (ES2019); a stable sort by a total preorder is
  unique, so it is embedded as an insertion sort.
-/

/-- A JavaScript number as a capture file may carry it: a finite value
(idealized as an exact rational), NaN, or an infinity. -/
inductive JsNum
  | fin (q : ℚ)
  | nan
  | inf
  | negInf
deriving DecidableEq

/-- The strict `>` comparison used by `draw.count > best.count`: NaN compares
false against everything, the infinities compare as IEEE-754 prescribes. -/
def JsNum.gtB : JsNum → JsNum → Bool
  | .nan, _ => false
  | _, .nan => false
  | .inf, .inf => false
  | .inf, _ => true
  | _, .inf => false
  | .negInf, _ => false
  | .fin _, .negInf => true
  | .fin a, .fin b => decide (b < a)

/-- A Buffer Descriptor of the trace: id, byte offset into the raw blob,
byte length (source type `BufferEntry`). -/
structure BufferEntry where
  id : Int
  binOffset : Nat
  byteLength : Nat
deriving DecidableEq

/-- A vertex attribute of a draw call (source type `Attribute`). -/
structure Attribute where
  index : Int
  size : Nat
  typeEnum : Nat
  normalized : Bool
  stride : Nat
  offset : Nat
  bufferId : Int
deriving DecidableEq

/-- A draw call of the trace (source type `DrawCall`).  The `count` field is
kept as a full JavaScript number: the selector only checks
`typeof draw.count === 'number'`, which every `JsNum` satisfies. -/
structure DrawCall where
  kind : String
  mode : Int
  count : JsNum
  indexTypeEnum : Nat
  indexOffset : Nat
  elementArrayBufferId : Option Int
  attribs : List Attribute
deriving DecidableEq

/-- A context of the trace, an ordered list of draw calls. -/
structure ContextEntry where
  draws : List DrawCall
deriving DecidableEq

/-- The parsed capture (source type `CaptureJson`). -/
structure CaptureJson where
  buffers : List BufferEntry
  contexts : List ContextEntry
deriving DecidableEq

/-- The selector result (source type `SelectedDraw`).  `buffersById` keeps the
underlying buffer list; `lookupBuffer` reproduces the `Map` built from it by
`pickMainDrawCall` (later entries with an equal id overwrite earlier ones). -/
structure SelectedDraw where
  draw : DrawCall
  buffersById : List BufferEntry
deriving DecidableEq

/-- Looking an id up in the `Map` that `for (buffer of buffers) map.set(id, buffer)`
builds: the last entry with that id wins. -/
def lookupBuffer (buffers : List BufferEntry) (bid : Int) : Option BufferEntry :=
  buffers.foldl (fun acc b => if b.id = bid then some b else acc) none

/-- The user-supplied decode options (source type `DecodeOptions`). -/
structure DecodeOptions where
  scale : ℚ
  biasX : ℚ
  biasY : ℚ
  biasZ : ℚ
  swapYZ : Bool
  invertZ : Bool
deriving DecidableEq

/-- The raw binary capture blob, seen through the one `DataView` the decoder
constructs over it: a byte length and a byte at every address (taken modulo
256 at each read). -/
structure DataView where
  byteLength : Nat
  byteAt : Nat → Nat

/-- The decoder's failure values.  Each constructor corresponds to one family
of `throw` sites of the source (or to the runtime errors its raw reads and
allocations can raise). -/
inductive BufRole
  | position
  | index
deriving DecidableEq

/-- Decode errors: the explicit throws of the source plus the two runtime
`RangeError` families (out-of-bounds `DataView` read, invalid array length). -/
inductive Err
  | missingPositionAttribute
  | missingBufferDescriptor (role : BufRole)
  | unsupportedComponentType (typeEnum : Nat)
  | unsupportedScalarType (typeEnum : Nat)
  | rangeError
  | invalidLength
deriving DecidableEq

/-- Byte width of a component type (source `bytesPerComponent`); unknown
enums throw `Unsupported component type enum`. -/
def bytesPerComponent (typeEnum : Nat) : Except Err Nat :=
  if typeEnum = 5120 then .ok 1
  else if typeEnum = 5121 then .ok 1
  else if typeEnum = 5122 then .ok 2
  else if typeEnum = 5123 then .ok 2
  else if typeEnum = 5124 then .ok 4
  else if typeEnum = 5125 then .ok 4
  else if typeEnum = 5126 then .ok 4
  else .error (.unsupportedComponentType typeEnum)

/-- One byte of the view, reduced to 0..255. -/
def DataView.byte (dv : DataView) (addr : Nat) : Nat :=
  dv.byteAt addr % 256

/-- The unsigned little-endian word of width `w` starting at `off`
(low byte first). -/
def leWord (dv : DataView) (off : Nat) : Nat → Nat
  | 0 => 0
  | w + 1 => dv.byte off + 256 * leWord dv (off + 1) w

/-- Reinterpret an unsigned `w`-byte word as the two's-complement signed
integer the `getInt8/16/32` accessors produce. -/
def toSigned (n : Nat) (w : Nat) : Int :=
  if n < 2 ^ (8 * w - 1) then (n : Int) else (n : Int) - 2 ^ (8 * w)

/-- Decode IEEE-754 single-precision bits as an exact rational.  Finite
values (normal and subnormal) are exact; the exponent-255 encodings
(infinities, NaN) have no rational counterpart and are mapped to 0 — no
theorem below depends on that branch. -/
def f32FromBits (b : Nat) : ℚ :=
  let sign : ℚ := if b / 2 ^ 31 % 2 = 1 then -1 else 1
  let e : Nat := b / 2 ^ 23 % 2 ^ 8
  let m : Nat := b % 2 ^ 23
  if e = 0 then sign * ((m : ℚ) / 2 ^ 149)
  else if e = 255 then 0
  else if e ≤ 150 then sign * (((2 ^ 23 + m : Nat) : ℚ) / 2 ^ (150 - e))
  else sign * (((2 ^ 23 + m : Nat) : ℚ) * 2 ^ (e - 150))

/-- A bounds-checked read of a `w`-byte word: `DataView.get*` raises
`RangeError` when the read would run past the end of the buffer. -/
def checkedRead (dv : DataView) (off w : Nat) (conv : Nat → ℚ) : Except Err ℚ :=
  if off + w ≤ dv.byteLength then .ok (conv (leWord dv off w)) else .error .rangeError

/-- Read one scalar little-endian at `byteOffset` (source `readScalar`);
unknown enums throw `Unsupported scalar type enum`. -/
def readScalar (dv : DataView) (byteOffset : Nat) (typeEnum : Nat) : Except Err ℚ :=
  if typeEnum = 5120 then checkedRead dv byteOffset 1 (fun n => ((toSigned n 1 : Int) : ℚ))
  else if typeEnum = 5121 then checkedRead dv byteOffset 1 (fun n => (n : ℚ))
  else if typeEnum = 5122 then checkedRead dv byteOffset 2 (fun n => ((toSigned n 2 : Int) : ℚ))
  else if typeEnum = 5123 then checkedRead dv byteOffset 2 (fun n => (n : ℚ))
  else if typeEnum = 5124 then checkedRead dv byteOffset 4 (fun n => ((toSigned n 4 : Int) : ℚ))
  else if typeEnum = 5125 then checkedRead dv byteOffset 4 (fun n => (n : ℚ))
  else if typeEnum = 5126 then checkedRead dv byteOffset 4 (fun n => f32FromBits n)
  else .error (.unsupportedScalarType typeEnum)

/-- Integer-to-float normalization (source `normalizeInt`).  The `default`
branch of the source switch returns the value unchanged. -/
def normalizeInt (val : ℚ) (typeEnum : Nat) : ℚ :=
  if typeEnum = 5120 then max (-1) (val / 127)
  else if typeEnum = 5121 then val / 255
  else if typeEnum = 5122 then max (-1) (val / 32767)
  else if typeEnum = 5123 then val / 65535
  else if typeEnum = 5124 then max (-1) (val / 2147483647)
  else if typeEnum = 5125 then val / 4294967295
  else val

/-- Effective stride of an attribute (source `getStride`): the recorded stride
when it is non-zero (and present — absence and `0` are both falsy), otherwise
`size × bytesPerComponent(typeEnum)`. -/
def getStride (attrib : Attribute) : Except Err Nat :=
  if attrib.stride ≠ 0 then .ok attrib.stride
  else do
    let w ← bytesPerComponent attrib.typeEnum
    .ok (attrib.size * w)

/-- The position heuristic of `findPositionAttrib`: three components and
(32-bit float, or 16-bit unsigned with `normalized` unset). -/
def isPositionAttrib (a : Attribute) : Bool :=
  a.size == 3 && (a.typeEnum == 5126 || (a.typeEnum == 5123 && !a.normalized))

/-- The normal heuristic of `findNormalAttrib`: three components, normalized,
8-bit or 16-bit signed. -/
def isNormalAttrib (a : Attribute) : Bool :=
  a.size == 3 && a.normalized && (a.typeEnum == 5120 || a.typeEnum == 5122)

/-- The UV heuristic of `findUvAttrib`: two components, normalized, 8-bit or
16-bit unsigned. -/
def isUvAttrib (a : Attribute) : Bool :=
  a.size == 2 && a.normalized && (a.typeEnum == 5121 || a.typeEnum == 5123)

/-- Source `findPositionAttrib`: the first match in the given order. -/
def findPositionAttrib (attribs : List Attribute) : Option Attribute :=
  attribs.find? isPositionAttrib

/-- Source `findNormalAttrib`. -/
def findNormalAttrib (attribs : List Attribute) : Option Attribute :=
  attribs.find? isNormalAttrib

/-- Source `findUvAttrib`. -/
def findUvAttrib (attribs : List Attribute) : Option Attribute :=
  attribs.find? isUvAttrib

/-- Stable insertion of an attribute into a list already sorted by slot index:
an element with an equal index that was earlier in the original order stays
earlier. -/
def insertAttrib (a : Attribute) : List Attribute → List Attribute
  | [] => [a]
  | b :: bs => if a.index ≤ b.index then a :: b :: bs else b :: insertAttrib a bs

/-- The stable ascending sort `attribs.slice().sort((a, b) => a.index - b.index)`
performs, embedded as an insertion sort (a stable sort by a total preorder is
unique). -/
def sortAttribs : List Attribute → List Attribute
  | [] => []
  | a :: as => insertAttrib a (sortAttribs as)

/-- Eligibility of a draw call in `pickMainDrawCall`: the `continue` guards.
The `typeof draw.count !== 'number'` guard is satisfied by construction, every
`JsNum` being a number. -/
def eligibleDraw (draw : DrawCall) : Bool :=
  draw.kind == "drawElements" && draw.mode == 4 &&
    !draw.attribs.isEmpty &&
    (match draw.elementArrayBufferId with
     | some bid => bid != 0
     | none => false)

/-- One step of the selector's scan:
`if (draw is eligible && (!best || draw.count > best.count)) best = draw`. -/
def pickStep (best : Option DrawCall) (draw : DrawCall) : Option DrawCall :=
  if eligibleDraw draw then
    match best with
    | none => some draw
    | some b => if draw.count.gtB b.count then some draw else some b
  else best

/-- Every draw call of every context, in trace order. -/
def allDraws (json : CaptureJson) : List DrawCall :=
  (json.contexts.map ContextEntry.draws).flatten

/-- Source `pickMainDrawCall`: scan every draw of every context, keep the
best, return it with the buffer map, or `null` when nothing is eligible. -/
def pickMainDrawCall (json : CaptureJson) : Option SelectedDraw :=
  let best := json.contexts.foldl (fun acc ctx => ctx.draws.foldl pickStep acc) none
  best.map (fun draw => ⟨draw, json.buffers⟩)

/-- The coercion a store into a `Uint32Array` applies (ECMAScript `ToUint32`):
truncate toward zero, then reduce modulo 2^32. -/
def jsToUint32 (q : ℚ) : Nat :=
  ((q.num.tdiv (q.den : Int)).emod 4294967296).toNat

/-- The length check of `new Uint32Array(count)` (ECMAScript `ToIndex`):
NaN yields an empty array, a value truncating below zero or an infinity
raises `RangeError`, anything else truncates. -/
def uint32ArrayLength : JsNum → Except Err Nat
  | .fin q => if q ≤ -1 then .error .invalidLength else .ok ⌊q⌋.toNat
  | .nan => .ok 0
  | _ => .error .invalidLength

/-- The length check of `new Array(count)`: anything but a non-negative
integer raises `RangeError` (the 2^32 cap is not modelled). -/
def arrayLength : JsNum → Except Err Nat
  | .fin q => if q.den = 1 ∧ 0 ≤ q.num then .ok q.num.toNat else .error .invalidLength
  | _ => .error .invalidLength

/-- Number of iterations of `for (let i = 0; i < count; i++)` over a
JavaScript bound: `⌈count⌉` iterations for a finite bound, none for NaN. An
infinite bound never terminates, but the allocation guarding every such loop
in the source raises first; the value returned here for it is irrelevant. -/
def jsLoopCount : JsNum → Nat
  | .fin q => ⌈q⌉.toNat
  | _ => 0

/-- Run `f` on `start, start+1, …, start+count-1` in order, stopping at the
first error — the shape of every decode loop of the source. -/
def loopE {β : Type} (f : Nat → Except Err β) : Nat → Nat → Except Err (List β)
  | _, 0 => .ok []
  | start, c + 1 => do
    let b ← f start
    let bs ← loopE f (start + 1) c
    .ok (b :: bs)

/-- Vertex count of the position channel followed by the
`new Float32Array(vertexCount * 3)` allocation:
`Math.floor((byteLength - offset) / stride)` is a floor division for a
positive stride (negative results make the allocation throw); a zero stride
gives NaN (allocating an empty array) when the numerator is zero and an
infinity (allocation throws) otherwise.  A zero stride is unreachable for a
classified attribute, whose size is 2 or 3. -/
def posVertexCountE (byteLength offsetN stride : Nat) : Except Err Nat :=
  if stride = 0 then
    (if byteLength = offsetN then .ok 0 else .error .invalidLength)
  else
    let f : Int := Int.fdiv ((byteLength : Int) - (offsetN : Int)) (stride : Int)
    if f < 0 then .error .invalidLength else .ok f.toNat

/-- Vertex count of the position channel in `buildObj`, followed by the
`new Array(posVertCount)` allocation, which unlike a typed array also throws
on NaN. -/
def objVertexCountE (byteLength offsetN stride : Nat) : Except Err Nat :=
  if stride = 0 then .error .invalidLength
  else
    let f : Int := Int.fdiv ((byteLength : Int) - (offsetN : Int)) (stride : Int)
    if f < 0 then .error .invalidLength else .ok f.toNat

/-- Count of an optional channel in `buildGltf`:
`Math.min(vertexCount, Math.floor((byteLength - offset) / stride))`, then the
`Float32Array` allocation (negative throws, NaN empties). -/
def channelCountE (vertexCount byteLength offsetN stride : Nat) : Except Err Nat :=
  if stride = 0 then
    (if byteLength = offsetN then .ok 0
     else if offsetN < byteLength then .ok vertexCount
     else .error .invalidLength)
  else
    let f : Int := min (vertexCount : Int) (Int.fdiv ((byteLength : Int) - (offsetN : Int)) (stride : Int))
    if f < 0 then .error .invalidLength else .ok f.toNat

/-- Count of an optional channel in `buildObj`: as `channelCountE`, but the
`new Array(count)` allocation also throws on NaN. -/
def objChannelCountE (vertexCount byteLength offsetN stride : Nat) : Except Err Nat :=
  if stride = 0 then
    (if offsetN < byteLength then .ok vertexCount else .error .invalidLength)
  else
    let f : Int := min (vertexCount : Int) (Int.fdiv ((byteLength : Int) - (offsetN : Int)) (stride : Int))
    if f < 0 then .error .invalidLength else .ok f.toNat

/-- Read the `comps` scalars of one vertex at `base`, `compBytes` apart, and
normalize each when the attribute is normalized — the shared body of the
normal and UV loops, which the source spells out twice verbatim. -/
def readComponents (dv : DataView) (typeEnum compBytes base : Nat) (normalized : Bool)
    (comps : Nat) : Except Err (List ℚ) :=
  loopE (fun c => do
    let v ← readScalar dv (base + c * compBytes) typeEnum
    pure (if normalized then normalizeInt v typeEnum else v)) 0 comps

/-- Decode and transform one position vertex — the body of the position loop,
identical in `buildGltf` and `buildObj`: read x, y, z, normalize when the
attribute is normalized, scale and bias, swap Y/Z, invert Z. -/
def decodePosVertex (dv : DataView) (posA : Attribute)
    (binOffset posOffset posStride posCompBytes : Nat) (options : DecodeOptions)
    (i : Nat) : Except Err (List ℚ) := do
  let base := binOffset + posOffset + i * posStride
  let x0 ← readScalar dv (base + 0 * posCompBytes) posA.typeEnum
  let y0 ← readScalar dv (base + 1 * posCompBytes) posA.typeEnum
  let z0 ← readScalar dv (base + 2 * posCompBytes) posA.typeEnum
  let x1 := if posA.normalized then normalizeInt x0 posA.typeEnum else x0
  let y1 := if posA.normalized then normalizeInt y0 posA.typeEnum else y0
  let z1 := if posA.normalized then normalizeInt z0 posA.typeEnum else z0
  let x2 := x1 * options.scale + options.biasX
  let y2 := y1 * options.scale + options.biasY
  let z2 := z1 * options.scale + options.biasZ
  let y3 := if options.swapYZ then z2 else y2
  let z3 := if options.swapYZ then y2 else z2
  let z4 := if options.invertZ then -z3 else z3
  pure [x2, y3, z4]

/-- Decode one optional channel (normal or UV): absent attribute or absent
buffer descriptor silently yields no channel; otherwise stride, count,
component width, then the read loop, in source order.  `typedAlloc`
distinguishes the `Float32Array` allocation of `buildGltf` from the
`new Array` allocation of `buildObj` (they differ only on NaN counts, which a
classified attribute cannot produce). -/
def decodeChannel (typedAlloc : Bool) (dv : DataView) (buffersById : List BufferEntry)
    (attribOpt : Option Attribute) (vertexCount comps : Nat) :
    Except Err (Option (List ℚ)) :=
  match attribOpt with
  | none => .ok none
  | some a =>
    match lookupBuffer buffersById a.bufferId with
    | none => .ok none
    | some buf => do
      let stride ← getStride a
      let cnt ← if typedAlloc then channelCountE vertexCount buf.byteLength a.offset stride
                else objChannelCountE vertexCount buf.byteLength a.offset stride
      let compBytes ← bytesPerComponent a.typeEnum
      let rows ← loopE (fun i =>
        readComponents dv a.typeEnum compBytes (buf.binOffset + a.offset + i * stride)
          a.normalized comps) 0 cnt
      pure (some rows.flatten)

/-- The index buffer the source resolves with
`draw.elementArrayBufferId ? buffersById.get(draw.elementArrayBufferId) : null`. -/
def resolveIndexBuffer (buffersById : List BufferEntry) (draw : DrawCall) :
    Option BufferEntry :=
  match draw.elementArrayBufferId with
  | some bid => if bid ≠ 0 then lookupBuffer buffersById bid else none
  | none => none

/-- The decoded geometry `buildGltf` computes before packing it: the index
array as stored in its `Uint32Array`, the flattened transformed positions,
and the optional flattened normal and UV channels. -/
structure DecodedGeometry where
  indices : List Nat
  positions : List ℚ
  normals : Option (List ℚ)
  uvs : Option (List ℚ)
deriving DecidableEq

/-- The decoding portion of source `buildGltf` (its lines up to the channel
loops), in source order: classify attributes on the index-sorted list,
resolve the position and index buffer descriptors (fatal when absent),
index loop, position loop with the affine transform, optional normal and UV
channels.  The packing of the result into buffer views and accessors is not
modelled; no claim concerns it. -/
def buildGltf (dv : DataView) (selected : SelectedDraw) (options : DecodeOptions) :
    Except Err DecodedGeometry := do
  let draw := selected.draw
  let attribs := sortAttribs draw.attribs
  let some posA := findPositionAttrib attribs | Except.error Err.missingPositionAttribute
  let nrmA := findNormalAttrib attribs
  let uvA := findUvAttrib attribs
  let some posBuf := lookupBuffer selected.buffersById posA.bufferId
    | Except.error (Err.missingBufferDescriptor .position)
  let some idxBuf := resolveIndexBuffer selected.buffersById draw
    | Except.error (Err.missingBufferDescriptor .index)
  let posStride ← getStride posA
  let posOffset := posA.offset
  let idxBpc ← bytesPerComponent draw.indexTypeEnum
  let idxStart := idxBuf.binOffset + draw.indexOffset
  let idxLen ← uint32ArrayLength draw.count
  let rawIdx ← loopE (fun i => readScalar dv (idxStart + i * idxBpc) draw.indexTypeEnum)
    0 (jsLoopCount draw.count)
  let indices := (rawIdx.map jsToUint32).take idxLen
  let vertexCount ← posVertexCountE posBuf.byteLength posOffset posStride
  let posCompBytes ← bytesPerComponent posA.typeEnum
  let posRows ← loopE
    (decodePosVertex dv posA posBuf.binOffset posOffset posStride posCompBytes options)
    0 vertexCount
  let positions := posRows.flatten
  let normals ← decodeChannel true dv selected.buffersById nrmA vertexCount 3
  let uvs ← decodeChannel true dv selected.buffersById uvA vertexCount 2
  pure ⟨indices, positions, normals, uvs⟩

/-- The arrays `buildObj` decodes before serializing them to text: raw index
values (kept as plain numbers, uncoerced), flattened transformed positions,
optional flattened normal and UV channels. -/
structure ObjDecoded where
  indices : List ℚ
  vertices : List ℚ
  normals : Option (List ℚ)
  uvs : Option (List ℚ)
deriving DecidableEq

/-- The decoding portion of source `buildObj` (everything before the text
emission), in source order: the same classification and buffer resolution as
`buildGltf`, the index byte width first, then positions, normals, UVs, and
the index loop last, into a plain array without the `Uint32` coercion. -/
def buildObjDecode (dv : DataView) (selected : SelectedDraw) (options : DecodeOptions) :
    Except Err ObjDecoded := do
  let draw := selected.draw
  let attribs := sortAttribs draw.attribs
  let some posA := findPositionAttrib attribs | Except.error Err.missingPositionAttribute
  let nrmA := findNormalAttrib attribs
  let uvA := findUvAttrib attribs
  let some posBuf := lookupBuffer selected.buffersById posA.bufferId
    | Except.error (Err.missingBufferDescriptor .position)
  let some idxBuf := resolveIndexBuffer selected.buffersById draw
    | Except.error (Err.missingBufferDescriptor .index)
  let idxBpc ← bytesPerComponent draw.indexTypeEnum
  let idxStart := idxBuf.binOffset + draw.indexOffset
  let posStride ← getStride posA
  let posOffset := posA.offset
  let posVertCount ← objVertexCountE posBuf.byteLength posOffset posStride
  let posCompBytes ← bytesPerComponent posA.typeEnum
  let posRows ← loopE
    (decodePosVertex dv posA posBuf.binOffset posOffset posStride posCompBytes options)
    0 posVertCount
  let vertices := posRows.flatten
  let normals ← decodeChannel false dv selected.buffersById nrmA posVertCount 3
  let uvs ← decodeChannel false dv selected.buffersById uvA posVertCount 2
  let idxCount ← arrayLength draw.count
  let indices ← loopE (fun i => readScalar dv (idxStart + i * idxBpc) draw.indexTypeEnum)
    0 idxCount
  pure ⟨indices, vertices, normals, uvs⟩

/-- Pad a byte list to a multiple of 4 with `padByte` (source `padTo4`). -/
def padTo4 (bytes : List Nat) (padByte : Nat) : List Nat :=
  bytes ++ List.replicate ((4 - bytes.length % 4) % 4) padByte

/-- The four bytes `setUint32(offset, n, true)` stores: little-endian, the
value reduced modulo 2^32. -/
def u32le (n : Nat) : List Nat :=
  [n % 256, n / 256 % 256, n / 65536 % 256, n / 16777216 % 256]

/-- Read back a little-endian 32-bit word at `off` (bytes reduced mod 256). -/
def readU32 (bytes : List Nat) (off : Nat) : Nat :=
  bytes.getD off 0 % 256 + 256 * (bytes.getD (off + 1) 0 % 256) +
    65536 * (bytes.getD (off + 2) 0 % 256) + 16777216 * (bytes.getD (off + 3) 0 % 256)

/-- Source `buildGlb`, starting from the serialized JSON bytes and the packed
binary payload: pad the JSON with ASCII spaces and the payload with zero
bytes to 4-byte boundaries, then emit the 12-byte header (magic, version 2,
total length) and the two length-prefixed, type-tagged chunks.  The JSON
serialization itself (cloning the scene object and replacing the external
buffer reference) is not modelled; the claims concern the envelope. -/
def buildGlb (jsonBytes binBytes : List Nat) : List Nat :=
  let jsonPadded := padTo4 jsonBytes 0x20
  let binPadded := padTo4 binBytes 0x00
  let totalLength := 12 + 8 + jsonPadded.length + 8 + binPadded.length
  u32le 0x46546C67 ++ u32le 2 ++ u32le totalLength ++
    u32le jsonPadded.length ++ u32le 0x4E4F534A ++ jsonPadded ++
    u32le binPadded.length ++ u32le 0x004E4942 ++ binPadded

/-! ### Basic facts about the `Except` plumbing and the loops -/

theorem exBind_ok {α β : Type} (x : Except Err α) (f : α → Except Err β) (b : β) :
    (x >>= f) = .ok b ↔ ∃ a, x = .ok a ∧ f a = .ok b := by
  cases x <;> simp [Bind.bind, Except.bind]

theorem exBind_error {α β : Type} (x : Except Err α) (f : α → Except Err β) (e : Err) :
    (x >>= f) = .error e ↔ x = .error e ∨ ∃ a, x = .ok a ∧ f a = .error e := by
  cases x <;> simp [Bind.bind, Except.bind]

theorem ok_bind {α β : Type} (a : α) (f : α → Except Err β) :
    ((Except.ok a : Except Err α) >>= f) = f a := rfl

theorem error_bind {α β : Type} (e : Err) (f : α → Except Err β) :
    ((Except.error e : Except Err α) >>= f) = .error e := rfl

theorem loopE_ok_length {β : Type} (f : Nat → Except Err β) :
    ∀ (c start : Nat) (ys : List β), loopE f start c = .ok ys → ys.length = c := by
  intro c
  induction c with
  | zero => intro start ys h; simp [loopE] at h; simp [← h]
  | succ n ih =>
    intro start ys h
    simp only [loopE] at h
    rw [exBind_ok] at h
    obtain ⟨b, hb, h⟩ := h
    rw [exBind_ok] at h
    obtain ⟨bs, hbs, h⟩ := h
    simp only [pure, Except.pure, Except.ok.injEq] at h
    subst h
    simp [ih _ _ hbs]

theorem loopE_ok_getD {β : Type} (f : Nat → Except Err β) (d : β) :
    ∀ (c start : Nat) (ys : List β), loopE f start c = .ok ys →
      ∀ i < c, f (start + i) = .ok (ys.getD i d) := by
  intro c
  induction c with
  | zero => intro start ys _ i hi; omega
  | succ n ih =>
    intro start ys h i hi
    simp only [loopE] at h
    rw [exBind_ok] at h
    obtain ⟨b, hb, h⟩ := h
    rw [exBind_ok] at h
    obtain ⟨bs, hbs, h⟩ := h
    simp only [pure, Except.pure, Except.ok.injEq] at h
    subst h
    cases i with
    | zero => simpa using hb
    | succ j =>
      have := ih (start + 1) bs hbs j (by omega)
      simpa [Nat.add_assoc, Nat.add_comm 1 j] using this

theorem loopE_exists_ok {β : Type} (f : Nat → Except Err β) :
    ∀ (c start : Nat), (∀ i < c, ∃ y, f (start + i) = .ok y) →
      ∃ ys, loopE f start c = .ok ys := by
  intro c
  induction c with
  | zero => intro start _; exact ⟨[], rfl⟩
  | succ n ih =>
    intro start h
    obtain ⟨y, hy⟩ := h 0 (by omega)
    obtain ⟨ys, hys⟩ := ih (start + 1) (fun i hi => by
      have := h (i + 1) (by omega)
      simpa [Nat.add_assoc, Nat.add_comm 1 i] using this)
    refine ⟨y :: ys, ?_⟩
    simp only [loopE]
    rw [exBind_ok]
    refine ⟨y, by simpa using hy, ?_⟩
    rw [exBind_ok]
    exact ⟨ys, hys, rfl⟩

theorem flatten_length_uniform {β : Type} (k : Nat) :
    ∀ rows : List (List β), (∀ r ∈ rows, r.length = k) →
      rows.flatten.length = k * rows.length := by
  intro rows
  induction rows with
  | nil => simp
  | cons r rs ih =>
    intro h
    simp only [List.flatten_cons, List.length_append, List.length_cons]
    rw [h r (by simp), ih (fun x hx => h x (by simp [hx]))]
    ring

theorem flatten_getD_uniform {β : Type} (k : Nat) (d : β) :
    ∀ (rows : List (List β)), (∀ r ∈ rows, r.length = k) →
      ∀ i c, i < rows.length → c < k →
        rows.flatten.getD (k * i + c) d = (rows.getD i []).getD c d := by
  intro rows
  induction rows with
  | nil => intro _ i c hi _; simp at hi
  | cons r rs ih =>
    intro h i c hi hc
    cases i with
    | zero =>
      have hr : r.length = k := h r (by simp)
      simp only [List.flatten_cons, Nat.mul_zero, Nat.zero_add, List.getD_cons_zero]
      exact List.getD_append _ _ _ _ (by omega)
    | succ j =>
      have hr : r.length = k := h r (by simp)
      have hlen : r.length ≤ k * (j + 1) + c := by
        have : k * 1 ≤ k * (j + 1) := Nat.mul_le_mul_left k (by omega)
        omega
      simp only [List.flatten_cons, List.getD_cons_succ]
      rw [List.getD_append_right _ _ _ _ hlen, hr]
      have harith : k * (j + 1) + c - k = k * j + c := by
        have : k * (j + 1) = k * j + k := by ring
        omega
      rw [harith]
      exact ih (fun x hx => h x (by simp [hx])) j c (by simpa using hi) hc

theorem find?_first {α : Type} (p : α → Bool) :
    ∀ (l : List α) (a : α), l.find? p = some a →
      p a = true ∧ ∃ pre post, l = pre ++ a :: post ∧ ∀ x ∈ pre, p x = false := by
  intro l
  induction l with
  | nil => intro a h; simp at h
  | cons x xs ih =>
    intro a h
    by_cases hx : p x = true
    · rw [List.find?_cons_of_pos _ hx] at h
      cases h
      exact ⟨hx, [], xs, rfl, by simp⟩
    · rw [List.find?_cons_of_neg _ hx] at h
      obtain ⟨hpa, pre, post, hsplit, hpre⟩ := ih a h
      refine ⟨hpa, x :: pre, post, by simp [hsplit], ?_⟩
      intro y hy
      rcases List.mem_cons.mp hy with rfl | hy
      · simpa using hx
      · exact hpre y hy

/-! ### Classifier field facts -/

theorem posAttrib_fields (a : Attribute) (h : isPositionAttrib a = true) :
    a.size = 3 ∧ (a.typeEnum = 5126 ∨ (a.typeEnum = 5123 ∧ a.normalized = false)) := by
  simpa [isPositionAttrib, Bool.and_eq_true, Bool.or_eq_true] using h

theorem nrmAttrib_fields (a : Attribute) (h : isNormalAttrib a = true) :
    a.size = 3 ∧ a.normalized = true ∧ (a.typeEnum = 5120 ∨ a.typeEnum = 5122) := by
  simpa [isNormalAttrib, Bool.and_eq_true, Bool.or_eq_true, and_assoc] using h

theorem uvAttrib_fields (a : Attribute) (h : isUvAttrib a = true) :
    a.size = 2 ∧ a.normalized = true ∧ (a.typeEnum = 5121 ∨ a.typeEnum = 5123) := by
  simpa [isUvAttrib, Bool.and_eq_true, Bool.or_eq_true, and_assoc] using h

theorem bpc_of_posAttrib (a : Attribute) (h : isPositionAttrib a = true) :
    ∃ w, bytesPerComponent a.typeEnum = .ok w ∧ 0 < w := by
  rcases (posAttrib_fields a h).2 with ht | ⟨ht, _⟩
  · exact ⟨4, by simp [bytesPerComponent, ht], by norm_num⟩
  · exact ⟨2, by simp [bytesPerComponent, ht], by norm_num⟩

theorem bpc_of_nrmAttrib (a : Attribute) (h : isNormalAttrib a = true) :
    ∃ w, bytesPerComponent a.typeEnum = .ok w ∧ 0 < w := by
  rcases (nrmAttrib_fields a h).2.2 with ht | ht
  · exact ⟨1, by simp [bytesPerComponent, ht], by norm_num⟩
  · exact ⟨2, by simp [bytesPerComponent, ht], by norm_num⟩

theorem bpc_of_uvAttrib (a : Attribute) (h : isUvAttrib a = true) :
    ∃ w, bytesPerComponent a.typeEnum = .ok w ∧ 0 < w := by
  rcases (uvAttrib_fields a h).2.2 with ht | ht
  · exact ⟨1, by simp [bytesPerComponent, ht], by norm_num⟩
  · exact ⟨2, by simp [bytesPerComponent, ht], by norm_num⟩

theorem stride_ok_of_supported (a : Attribute)
    (hw : ∃ w, bytesPerComponent a.typeEnum = .ok w ∧ 0 < w) (hs : a.size ≠ 0) :
    ∃ s, getStride a = .ok s ∧ 0 < s := by
  rcases hw with ⟨w, hw, hwpos⟩
  by_cases h0 : a.stride = 0
  · refine ⟨a.size * w, ?_, Nat.mul_pos (Nat.pos_of_ne_zero hs) hwpos⟩
    simp [getStride, h0, hw, ok_bind]
  · exact ⟨a.stride, by simp [getStride, h0], Nat.pos_of_ne_zero h0⟩

theorem getStride_of_posAttrib (a : Attribute) (h : isPositionAttrib a = true) :
    ∃ s, getStride a = .ok s ∧ 0 < s :=
  stride_ok_of_supported a (bpc_of_posAttrib a h) (by simp [(posAttrib_fields a h).1])

theorem getStride_of_nrmAttrib (a : Attribute) (h : isNormalAttrib a = true) :
    ∃ s, getStride a = .ok s ∧ 0 < s :=
  stride_ok_of_supported a (bpc_of_nrmAttrib a h) (by simp [(nrmAttrib_fields a h).1])

theorem getStride_of_uvAttrib (a : Attribute) (h : isUvAttrib a = true) :
    ∃ s, getStride a = .ok s ∧ 0 < s :=
  stride_ok_of_supported a (bpc_of_uvAttrib a h) (by simp [(uvAttrib_fields a h).1])

/-! ### C3 — integer normalization -/

/-- The raw bytes of the C3 scenario: a 16-bit unsigned normalized
2-component pair with raw value (65535, 0). -/
def uvPairDv : DataView := ⟨4, fun addr => [255, 255, 0, 0].getD addr 0⟩

/-- C3: `normalize` divides signed n-bit values by `2^(n-1)-1` and clamps at
a minimum of -1 (so the most negative representable value maps to exactly
-1), divides unsigned n-bit values by `2^n - 1`, and returns 32-bit float
values unchanged; a 16-bit unsigned normalized raw pair (65535, 0) decodes
to exactly (1, 0). -/
theorem C3_normalize_spec :
    (∀ v : ℚ,
      normalizeInt v 5120 = max (-1) (v / (2 ^ 7 - 1)) ∧
      normalizeInt v 5122 = max (-1) (v / (2 ^ 15 - 1)) ∧
      normalizeInt v 5124 = max (-1) (v / (2 ^ 31 - 1)) ∧
      normalizeInt v 5121 = v / (2 ^ 8 - 1) ∧
      normalizeInt v 5123 = v / (2 ^ 16 - 1) ∧
      normalizeInt v 5125 = v / (2 ^ 32 - 1) ∧
      normalizeInt v 5126 = v) ∧
    normalizeInt (-(2 ^ 7)) 5120 = -1 ∧
    normalizeInt (-(2 ^ 15)) 5122 = -1 ∧
    normalizeInt (-(2 ^ 31)) 5124 = -1 ∧
    normalizeInt 65535 5123 = 1 ∧
    normalizeInt 0 5123 = 0 ∧
    readComponents uvPairDv 5123 2 0 true 2 = .ok [1, 0] := by
  refine ⟨fun v => ⟨?_, ?_, ?_, ?_, ?_, ?_, ?_⟩, ?_, ?_, ?_, ?_, ?_, ?_⟩
  · norm_num [normalizeInt]
  · norm_num [normalizeInt]
  · norm_num [normalizeInt]
  · norm_num [normalizeInt]
  · norm_num [normalizeInt]
  · norm_num [normalizeInt]
  · norm_num [normalizeInt]
  · rw [show normalizeInt (-(2 ^ 7)) 5120 = max (-1) (-(2 ^ 7) / 127) by norm_num [normalizeInt]]
    rw [max_eq_left (by norm_num)]
  · rw [show normalizeInt (-(2 ^ 15)) 5122 = max (-1) (-(2 ^ 15) / 32767) by
      norm_num [normalizeInt]]
    rw [max_eq_left (by norm_num)]
  · rw [show normalizeInt (-(2 ^ 31)) 5124 = max (-1) (-(2 ^ 31) / 2147483647) by
      norm_num [normalizeInt]]
    rw [max_eq_left (by norm_num)]
  · norm_num [normalizeInt]
  · norm_num [normalizeInt]
  · simp [readComponents, loopE, readScalar, checkedRead, leWord, DataView.byte, uvPairDv,
      normalizeInt, ok_bind, bind, Except.bind, pure, Except.pure]

/-! ### C7 — unsupported component types -/

/-- C7 counterexample: `normalize` does not fail on an unsupported component
type; the source switch's default branch returns the raw value unchanged
(here, `normalize(5, 9999) = 5`). -/
theorem C7_counterexample : normalizeInt 5 9999 = 5 := by
  norm_num [normalizeInt]

/-- C7 (amended): for every component type outside the supported set, byte
width and scalar read fail with the `UnsupportedType` errors, and such an
index component type is fatal to the calling decode; `normalize`, however,
returns the raw value unchanged instead of failing. -/
theorem C7_unsupported_type (t : Nat)
    (h : ¬(t = 5120 ∨ t = 5121 ∨ t = 5122 ∨ t = 5123 ∨ t = 5124 ∨ t = 5125 ∨ t = 5126)) :
    bytesPerComponent t = .error (.unsupportedComponentType t) ∧
    (∀ dv off, readScalar dv off t = .error (.unsupportedScalarType t)) ∧
    (∀ v : ℚ, normalizeInt v t = v) ∧
    (∀ dv selected options posA,
      findPositionAttrib (sortAttribs selected.draw.attribs) = some posA →
      (∃ b, lookupBuffer selected.buffersById posA.bufferId = some b) →
      (∃ b, resolveIndexBuffer selected.buffersById selected.draw = some b) →
      selected.draw.indexTypeEnum = t →
      buildGltf dv selected options = .error (.unsupportedComponentType t)) := by
  have h7 := h
  push_neg at h7
  obtain ⟨h1, h2, h3, h4, h5, h6, h0⟩ := h7
  have hb : bytesPerComponent t = .error (.unsupportedComponentType t) := by
    simp [bytesPerComponent, h1, h2, h3, h4, h5, h6, h0]
  refine ⟨hb, ?_, ?_, ?_⟩
  · intro dv off
    simp [readScalar, h1, h2, h3, h4, h5, h6, h0]
  · intro v
    simp [normalizeInt, h1, h2, h3, h4, h5, h6, h0]
  · intro dv selected options posA hpos hpb hib hidx
    obtain ⟨pb, hpb⟩ := hpb
    obtain ⟨ib, hib⟩ := hib
    have hcl : isPositionAttrib posA = true := List.find?_some hpos
    obtain ⟨s, hs, _⟩ := getStride_of_posAttrib posA hcl
    simp [buildGltf, hpos, hpb, hib, hs, hidx, hb, ok_bind, error_bind]

/-- C7 witness: the amended statement instantiated at the unsupported
component type 9999. -/
theorem C7_unsupported_type_witness :
    ¬((9999 : Nat) = 5120 ∨ (9999 : Nat) = 5121 ∨ (9999 : Nat) = 5122 ∨
        (9999 : Nat) = 5123 ∨ (9999 : Nat) = 5124 ∨ (9999 : Nat) = 5125 ∨
        (9999 : Nat) = 5126) ∧
    (bytesPerComponent 9999 = .error (.unsupportedComponentType 9999) ∧
      (∀ dv off, readScalar dv off 9999 = .error (.unsupportedScalarType 9999)) ∧
      (∀ v : ℚ, normalizeInt v 9999 = v) ∧
      (∀ dv selected options posA,
        findPositionAttrib (sortAttribs selected.draw.attribs) = some posA →
        (∃ b, lookupBuffer selected.buffersById posA.bufferId = some b) →
        (∃ b, resolveIndexBuffer selected.buffersById selected.draw = some b) →
        selected.draw.indexTypeEnum = 9999 →
        buildGltf dv selected options = .error (.unsupportedComponentType 9999))) :=
  ⟨by decide, C7_unsupported_type 9999 (by decide)⟩

/-! ### C4 — the single-file binary container layout -/

theorem readU32_u32le (n : Nat) (rest : List Nat) :
    readU32 (u32le n ++ rest) 0 = n % 4294967296 := by
  have g0 : (u32le n ++ rest).getD 0 0 = n % 256 := rfl
  have g1 : (u32le n ++ rest).getD 1 0 = n / 256 % 256 := rfl
  have g2 : (u32le n ++ rest).getD 2 0 = n / 65536 % 256 := rfl
  have g3 : (u32le n ++ rest).getD 3 0 = n / 16777216 % 256 := rfl
  simp only [readU32, Nat.zero_add, g0, g1, g2, g3]
  omega

theorem readU32_past_u32le (n : Nat) (rest : List Nat) (off : Nat) :
    readU32 (u32le n ++ rest) (4 + off) = readU32 rest off := by
  have h4 : (u32le n).length = 4 := rfl
  have e : ∀ k, (u32le n ++ rest).getD (4 + off + k) 0 = rest.getD (off + k) 0 := by
    intro k
    rw [List.getD_append_right _ _ _ _ (by rw [h4]; omega), h4]
    congr 1
    omega
  have e0 : (u32le n ++ rest).getD (4 + off) 0 = rest.getD off 0 := by
    simpa using e 0
  simp only [readU32, e, e0]

theorem readU32_drop (l : List Nat) (off : Nat) :
    readU32 l off = readU32 (l.drop off) 0 := by
  simp [readU32, List.getD_eq_getElem?_getD, List.getElem?_drop]

/-- C4: the container produced by `buildGlb` has exactly the claimed layout:
a 12-byte header (magic `0x46546C67`, version 2, total length equal to the
actual emitted byte length), a JSON chunk (little-endian 32-bit length, tag
`0x4E4F534A`, JSON text padded to a 4-byte boundary with ASCII spaces), and a
binary chunk (length, tag `0x004E4942`, payload padded with zero bytes); both
chunk length fields are multiples of 4 and equal their padded payload
lengths.  The hypothesis keeps the 32-bit length fields from wrapping. -/
theorem C4_buildGlb_layout (jsonBytes binBytes : List Nat)
    (hsize : (buildGlb jsonBytes binBytes).length < 4294967296) :
    (buildGlb jsonBytes binBytes).length =
      28 + (padTo4 jsonBytes 32).length + (padTo4 binBytes 0).length ∧
    readU32 (buildGlb jsonBytes binBytes) 0 = 0x46546C67 ∧
    readU32 (buildGlb jsonBytes binBytes) 4 = 2 ∧
    readU32 (buildGlb jsonBytes binBytes) 8 = (buildGlb jsonBytes binBytes).length ∧
    readU32 (buildGlb jsonBytes binBytes) 12 = (padTo4 jsonBytes 32).length ∧
    readU32 (buildGlb jsonBytes binBytes) 16 = 0x4E4F534A ∧
    ((buildGlb jsonBytes binBytes).drop 20).take (padTo4 jsonBytes 32).length =
      padTo4 jsonBytes 32 ∧
    readU32 (buildGlb jsonBytes binBytes) (20 + (padTo4 jsonBytes 32).length) =
      (padTo4 binBytes 0).length ∧
    readU32 (buildGlb jsonBytes binBytes) (24 + (padTo4 jsonBytes 32).length) = 0x004E4942 ∧
    (buildGlb jsonBytes binBytes).drop (28 + (padTo4 jsonBytes 32).length) =
      padTo4 binBytes 0 ∧
    (padTo4 jsonBytes 32).length % 4 = 0 ∧
    (padTo4 binBytes 0).length % 4 = 0 ∧
    padTo4 jsonBytes 32 = jsonBytes ++ List.replicate ((4 - jsonBytes.length % 4) % 4) 32 ∧
    padTo4 binBytes 0 = binBytes ++ List.replicate ((4 - binBytes.length % 4) % 4) 0 := by
  have hform : buildGlb jsonBytes binBytes =
      u32le 0x46546C67 ++ (u32le 2 ++
        (u32le (28 + (padTo4 jsonBytes 32).length + (padTo4 binBytes 0).length) ++
          (u32le (padTo4 jsonBytes 32).length ++ (u32le 0x4E4F534A ++
            (padTo4 jsonBytes 32 ++ (u32le (padTo4 binBytes 0).length ++
              (u32le 0x004E4942 ++ padTo4 binBytes 0))))))) := by
    simp [buildGlb, List.append_assoc]
    ring_nf
  have hlen : (buildGlb jsonBytes binBytes).length =
      28 + (padTo4 jsonBytes 32).length + (padTo4 binBytes 0).length := by
    rw [hform]
    simp [u32le]
    omega
  rw [hlen] at hsize
  have hdrop20 : (buildGlb jsonBytes binBytes).drop 20 =
      padTo4 jsonBytes 32 ++ (u32le (padTo4 binBytes 0).length ++
        (u32le 0x004E4942 ++ padTo4 binBytes 0)) := by
    rw [hform]
    rfl
  have hdropJ : List.drop (padTo4 jsonBytes 32).length ((buildGlb jsonBytes binBytes).drop 20) =
      u32le (padTo4 binBytes 0).length ++ (u32le 0x004E4942 ++ padTo4 binBytes 0) := by
    rw [hdrop20, List.drop_left]
  refine ⟨hlen, ?_, ?_, ?_, ?_, ?_, ?_, ?_, ?_, ?_, ?_, ?_, rfl, rfl⟩
  · rw [hform, readU32_u32le]
  · rw [hform, show (4 : Nat) = 4 + 0 from rfl, readU32_past_u32le, readU32_u32le]
  · have h8 : readU32 (buildGlb jsonBytes binBytes) 8 =
        28 + (padTo4 jsonBytes 32).length + (padTo4 binBytes 0).length := by
      rw [hform, show (8 : Nat) = 4 + (4 + 0) from rfl, readU32_past_u32le, readU32_past_u32le,
        readU32_u32le, Nat.mod_eq_of_lt (by omega)]
    rw [h8, hlen]
  · rw [hform, show (12 : Nat) = 4 + (4 + (4 + 0)) from rfl, readU32_past_u32le,
      readU32_past_u32le, readU32_past_u32le, readU32_u32le, Nat.mod_eq_of_lt (by omega)]
  · rw [hform, show (16 : Nat) = 4 + (4 + (4 + (4 + 0))) from rfl, readU32_past_u32le,
      readU32_past_u32le, readU32_past_u32le, readU32_past_u32le, readU32_u32le]
  · rw [hdrop20, List.take_left]
  · rw [readU32_drop, ← List.drop_drop, hdropJ, readU32_u32le, Nat.mod_eq_of_lt (by omega)]
  · rw [readU32_drop, show 24 + (padTo4 jsonBytes 32).length =
        (20 + (padTo4 jsonBytes 32).length) + 4 from by omega, ← List.drop_drop,
      ← List.drop_drop, hdropJ]
    rw [show (4 : Nat) = (u32le (padTo4 binBytes 0).length).length from rfl, List.drop_left,
      readU32_u32le]
  · rw [show 28 + (padTo4 jsonBytes 32).length =
        (20 + (padTo4 jsonBytes 32).length) + 8 from by omega, ← List.drop_drop,
      ← List.drop_drop, hdropJ]
    rfl
  · simp [padTo4]
    omega
  · simp [padTo4]
    omega

/-- C4 witness: the layout theorem applied to a concrete two-byte JSON text
and a three-byte payload. -/
theorem C4_buildGlb_layout_witness :
    (buildGlb [123, 125] [7]).length < 4294967296 ∧
    readU32 (buildGlb [123, 125] [7]) 0 = 0x46546C67 ∧
    readU32 (buildGlb [123, 125] [7]) 8 = (buildGlb [123, 125] [7]).length :=
  ⟨by decide, (C4_buildGlb_layout [123, 125] [7] (by decide)).2.1,
    (C4_buildGlb_layout [123, 125] [7] (by decide)).2.2.2.1⟩

/-! ### C2 — the draw-call selector -/

def countQ (d : DrawCall) : ℚ :=
  match d.count with
  | .fin q => q
  | _ => 0

theorem gtB_fin_iff (x y : JsNum) (qx qy : ℚ) (hx : x = .fin qx) (hy : y = .fin qy) :
    (x.gtB y = true) ↔ qy < qx := by
  subst hx hy
  simp [JsNum.gtB]

theorem pickStep_some (b d : DrawCall) : ∃ c, pickStep (some b) d = some c := by
  unfold pickStep
  by_cases he : eligibleDraw d = true
  · simp [he]
    by_cases hg : d.count.gtB b.count = true
    · exact ⟨d, by simp [hg]⟩
    · exact ⟨b, by simp [hg]⟩
  · simp at he
    exact ⟨b, by simp [he]⟩

theorem foldl_pickStep_some_ne_none (l : List DrawCall) :
    ∀ b : DrawCall, l.foldl pickStep (some b) ≠ none := by
  induction l with
  | nil => intro b h; simp at h
  | cons d ds ih =>
    intro b
    obtain ⟨c, hc⟩ := pickStep_some b d
    simp only [List.foldl_cons, hc]
    exact ih c

theorem foldl_pickStep_none_iff (l : List DrawCall) :
    l.foldl pickStep none = none ↔ ∀ d ∈ l, eligibleDraw d = false := by
  induction l with
  | nil => simp
  | cons d ds ih =>
    by_cases he : eligibleDraw d = true
    · simp only [List.foldl_cons, pickStep, he, if_true]
      constructor
      · intro h
        exact absurd h (foldl_pickStep_some_ne_none ds d)
      · intro h
        have := h d (by simp)
        rw [he] at this
        cases this
    · simp only [Bool.not_eq_true] at he
      simp only [List.foldl_cons, pickStep, he]
      rw [if_neg (by simp [he])]
      rw [ih]
      constructor
      · intro h d' hd'
        rcases List.mem_cons.mp hd' with rfl | hd'
        · exact he
        · exact h d' hd'
      · intro h d' hd'
        exact h d' (by simp [hd'])

theorem foldl_pickStep_mem (l : List DrawCall) :
    ∀ (acc : Option DrawCall) (m : DrawCall), l.foldl pickStep acc = some m →
      acc = some m ∨ (m ∈ l ∧ eligibleDraw m = true) := by
  induction l with
  | nil => intro acc m h; simp at h; simp [h]
  | cons d ds ih =>
    intro acc m h
    simp only [List.foldl_cons] at h
    rcases ih (pickStep acc d) m h with hacc | hm
    · unfold pickStep at hacc
      by_cases he : eligibleDraw d = true
      · rw [if_pos he] at hacc
        cases acc with
        | none =>
          simp at hacc
          exact Or.inr ⟨by simp [← hacc], hacc ▸ he⟩
        | some b =>
          by_cases hg : d.count.gtB b.count = true
          · simp [hg] at hacc
            exact Or.inr ⟨by simp [← hacc], hacc ▸ he⟩
          · simp [hg] at hacc
            exact Or.inl (by simp [← hacc])
      · rw [if_neg he] at hacc
        exact Or.inl hacc
    · exact Or.inr ⟨by simp [hm.1], hm.2⟩

theorem foldl_pickStep_max (l : List DrawCall) :
    ∀ (b m : DrawCall),
      (∀ d ∈ l, eligibleDraw d = true → ∃ q, d.count = JsNum.fin q) →
      (∃ qb, b.count = JsNum.fin qb) →
      l.foldl pickStep (some b) = some m →
      (∃ qm, m.count = JsNum.fin qm) ∧
      ((m = b ∧ ∀ d ∈ l, eligibleDraw d = true → countQ d ≤ countQ b) ∨
       (∃ pre post, l = pre ++ m :: post ∧ eligibleDraw m = true ∧ countQ b < countQ m ∧
         (∀ d ∈ pre, eligibleDraw d = true → countQ d < countQ m) ∧
         (∀ d ∈ post, eligibleDraw d = true → countQ d ≤ countQ m))) := by
  induction l with
  | nil =>
    intro b m _ hb h
    simp at h
    subst h
    exact ⟨hb, Or.inl ⟨rfl, by simp⟩⟩
  | cons d ds ih =>
    intro b m hfin hb hfold
    simp only [List.foldl_cons] at hfold
    by_cases he : eligibleDraw d = true
    · obtain ⟨qd, hqd⟩ := hfin d (by simp) he
      obtain ⟨qb, hqb⟩ := hb
      have hcountd : countQ d = qd := by simp [countQ, hqd]
      have hcountb : countQ b = qb := by simp [countQ, hqb]
      by_cases hg : d.count.gtB b.count = true
      · have hlt : qb < qd := (gtB_fin_iff _ _ _ _ hqd hqb).mp hg
        simp only [pickStep, he, if_true, hg] at hfold
        obtain ⟨hmfin, hcase⟩ := ih d m (fun x hx hex => hfin x (by simp [hx]) hex) ⟨qd, hqd⟩ hfold
        refine ⟨hmfin, Or.inr ?_⟩
        rcases hcase with ⟨rfl, hall⟩ | ⟨pre, post, hsplit, hem, hbm, hpre, hpost⟩
        · refine ⟨[], ds, by simp, he, ?_, by simp, hall⟩
          rw [hcountb, hcountd]
          exact hlt
        · refine ⟨d :: pre, post, by simp [hsplit], hem, ?_, ?_, hpost⟩
          · rw [hcountb]
            calc qb < qd := hlt
              _ = countQ d := hcountd.symm
              _ < countQ m := hbm
          · intro x hx hex
            rcases List.mem_cons.mp hx with rfl | hx
            · rw [hcountd] at hbm ⊢
              exact hbm
            · exact hpre x hx hex
      · have hle : qd ≤ qb := by
          by_contra hnot
          exact hg ((gtB_fin_iff _ _ _ _ hqd hqb).mpr (lt_of_not_le hnot))
        simp only [Bool.not_eq_true] at hg
        simp only [pickStep, he, if_true, hg, Bool.false_eq_true, if_false] at hfold
        obtain ⟨hmfin, hcase⟩ := ih b m (fun x hx hex => hfin x (by simp [hx]) hex) ⟨qb, hqb⟩ hfold
        refine ⟨hmfin, ?_⟩
        rcases hcase with ⟨rfl, hall⟩ | ⟨pre, post, hsplit, hem, hbm, hpre, hpost⟩
        · refine Or.inl ⟨rfl, ?_⟩
          intro x hx hex
          rcases List.mem_cons.mp hx with rfl | hx
          · rw [hcountd, hcountb]
            exact hle
          · exact hall x hx hex
        · refine Or.inr ⟨d :: pre, post, by simp [hsplit], hem, hbm, ?_, hpost⟩
          intro x hx hex
          rcases List.mem_cons.mp hx with rfl | hx
          · rw [hcountd]
            calc qd ≤ qb := hle
              _ = countQ b := hcountb.symm
              _ < countQ m := hbm
          · exact hpre x hx hex
    · simp only [pickStep, he, Bool.false_eq_true, if_false] at hfold
      obtain ⟨hmfin, hcase⟩ := ih b m (fun x hx hex => hfin x (by simp [hx]) hex) hb hfold
      refine ⟨hmfin, ?_⟩
      rcases hcase with ⟨rfl, hall⟩ | ⟨pre, post, hsplit, hem, hbm, hpre, hpost⟩
      · refine Or.inl ⟨rfl, ?_⟩
        intro x hx hex
        rcases List.mem_cons.mp hx with rfl | hx
        · exact absurd hex he
        · exact hall x hx hex
      · refine Or.inr ⟨d :: pre, post, by simp [hsplit], hem, hbm, ?_, hpost⟩
        intro x hx hex
        rcases List.mem_cons.mp hx with rfl | hx
        · exact absurd hex he
        · exact hpre x hx hex

theorem foldl_pickStep_first_max (l : List DrawCall) :
    ∀ m : DrawCall,
      (∀ d ∈ l, eligibleDraw d = true → ∃ q, d.count = JsNum.fin q) →
      l.foldl pickStep none = some m →
      ∃ pre post, l = pre ++ m :: post ∧ eligibleDraw m = true ∧
        (∀ d ∈ pre, eligibleDraw d = true → countQ d < countQ m) ∧
        (∀ d ∈ post, eligibleDraw d = true → countQ d ≤ countQ m) := by
  induction l with
  | nil => intro m _ h; simp at h
  | cons d ds ih =>
    intro m hfin hfold
    simp only [List.foldl_cons] at hfold
    by_cases he : eligibleDraw d = true
    · simp only [pickStep, he, if_true] at hfold
      obtain ⟨hmfin, hcase⟩ :=
        foldl_pickStep_max ds d m (fun x hx hex => hfin x (by simp [hx]) hex)
          (hfin d (by simp) he) hfold
      rcases hcase with ⟨rfl, hall⟩ | ⟨pre, post, hsplit, hem, hbm, hpre, hpost⟩
      · exact ⟨[], ds, by simp, he, by simp, hall⟩
      · refine ⟨d :: pre, post, by simp [hsplit], hem, ?_, hpost⟩
        intro x hx hex
        rcases List.mem_cons.mp hx with rfl | hx
        · exact hbm
        · exact hpre x hx hex
    · simp only [pickStep, he, Bool.false_eq_true, if_false] at hfold
      obtain ⟨pre, post, hsplit, hem, hpre, hpost⟩ :=
        ih m (fun x hx hex => hfin x (by simp [hx]) hex) hfold
      refine ⟨d :: pre, post, by simp [hsplit], hem, ?_, hpost⟩
      intro x hx hex
      rcases List.mem_cons.mp hx with rfl | hx
      · exact absurd hex he
      · exact hpre x hx hex

theorem pickFold_flat (ctxs : List ContextEntry) :
    ∀ acc : Option DrawCall,
      ctxs.foldl (fun acc ctx => ctx.draws.foldl pickStep acc) acc =
        ((ctxs.map ContextEntry.draws).flatten).foldl pickStep acc := by
  induction ctxs with
  | nil => intro acc; rfl
  | cons c cs ih =>
    intro acc
    simp only [List.foldl_cons, List.map_cons, List.flatten_cons, List.foldl_append]
    exact ih _

theorem C2_selector_spec (json : CaptureJson) :
    (∀ d : DrawCall, eligibleDraw d = true ↔
      (d.kind = "drawElements" ∧ d.mode = 4 ∧ d.attribs ≠ [] ∧
        ∃ bid, d.elementArrayBufferId = some bid ∧ bid ≠ 0)) ∧
    (pickMainDrawCall json = none ↔ ∀ d ∈ allDraws json, eligibleDraw d = false) ∧
    (∀ sel, pickMainDrawCall json = some sel →
      sel.buffersById = json.buffers ∧ sel.draw ∈ allDraws json ∧
      eligibleDraw sel.draw = true ∧
      ((∀ d ∈ allDraws json, eligibleDraw d = true → ∃ q, d.count = JsNum.fin q) →
        ∃ pre post, allDraws json = pre ++ sel.draw :: post ∧
          (∀ d ∈ pre, eligibleDraw d = true → countQ d < countQ sel.draw) ∧
          (∀ d ∈ post, eligibleDraw d = true → countQ d ≤ countQ sel.draw))) := by
  have hflat : json.contexts.foldl (fun acc ctx => ctx.draws.foldl pickStep acc) none =
      (allDraws json).foldl pickStep none := pickFold_flat json.contexts none
  refine ⟨?_, ?_, ?_⟩
  · intro d
    cases hid : d.elementArrayBufferId with
    | none => simp [eligibleDraw, hid, List.isEmpty_iff]
    | some bid =>
      simp only [eligibleDraw, hid, Bool.and_eq_true, beq_iff_eq, bne_iff_ne, ne_eq,
        Bool.not_eq_true', List.isEmpty_eq_false]
      constructor
      · rintro ⟨⟨⟨h1, h2⟩, h3⟩, h4⟩
        exact ⟨h1, h2, h3, bid, rfl, h4⟩
      · rintro ⟨h1, h2, h3, bid2, hb, h4⟩
        cases hb
        exact ⟨⟨⟨h1, h2⟩, h3⟩, h4⟩
  · rw [show pickMainDrawCall json = (((allDraws json).foldl pickStep none).map
      (fun draw => (⟨draw, json.buffers⟩ : SelectedDraw))) from by
        rw [pickMainDrawCall, hflat]]
    rw [Option.map_eq_none']
    exact foldl_pickStep_none_iff (allDraws json)
  · intro sel hsel
    rw [show pickMainDrawCall json = (((allDraws json).foldl pickStep none).map
      (fun draw => (⟨draw, json.buffers⟩ : SelectedDraw))) from by
        rw [pickMainDrawCall, hflat]] at hsel
    rw [Option.map_eq_some'] at hsel
    obtain ⟨m, hm, rfl⟩ := hsel
    rcases foldl_pickStep_mem (allDraws json) none m hm with h | ⟨hmem, hel⟩
    · cases h
    refine ⟨rfl, hmem, hel, ?_⟩
    intro hfin
    obtain ⟨pre, post, hsplit, _, hpre, hpost⟩ :=
      foldl_pickStep_first_max (allDraws json) m hfin hm
    exact ⟨pre, post, hsplit, hpre, hpost⟩

def cexAttr : Attribute := ⟨0, 3, 5126, false, 0, 0, 1⟩

def cexNanDraw : DrawCall := ⟨"drawElements", 4, JsNum.nan, 5123, 0, some 1, [cexAttr]⟩

def cexNanJson : CaptureJson := ⟨[], [⟨[cexNanDraw]⟩]⟩

theorem C2_counterexample :
    pickMainDrawCall cexNanJson = some ⟨cexNanDraw, []⟩ ∧
    (∀ d ∈ allDraws cexNanJson,
      ¬(d.kind = "drawElements" ∧ d.mode = 4 ∧ (∃ q, d.count = JsNum.fin q) ∧
        d.attribs ≠ [] ∧ ∃ bid, d.elementArrayBufferId = some bid ∧ bid ≠ 0)) := by
  constructor
  · rfl
  · intro d hd
    simp only [allDraws, cexNanJson, List.map_cons, List.map_nil, List.flatten_cons,
      List.flatten_nil, List.append_nil, List.mem_singleton] at hd
    subst hd
    rintro ⟨-, -, ⟨q, hq⟩, -⟩
    simp [cexNanDraw] at hq

theorem pure_eq_ok {α : Type} (a : α) : (pure a : Except Err α) = .ok a := rfl

theorem buildGltf_ok_inv (dv : DataView) (selected : SelectedDraw) (options : DecodeOptions)
    (g : DecodedGeometry) (hok : buildGltf dv selected options = .ok g) :
    ∃ posA posBuf idxBuf posStride idxBpc idxLen rawIdx vertexCount posCompBytes posRows
      normals uvs,
      findPositionAttrib (sortAttribs selected.draw.attribs) = some posA ∧
      lookupBuffer selected.buffersById posA.bufferId = some posBuf ∧
      resolveIndexBuffer selected.buffersById selected.draw = some idxBuf ∧
      getStride posA = .ok posStride ∧
      bytesPerComponent selected.draw.indexTypeEnum = .ok idxBpc ∧
      uint32ArrayLength selected.draw.count = .ok idxLen ∧
      loopE (fun i => readScalar dv (idxBuf.binOffset + selected.draw.indexOffset + i * idxBpc)
        selected.draw.indexTypeEnum) 0 (jsLoopCount selected.draw.count) = .ok rawIdx ∧
      posVertexCountE posBuf.byteLength posA.offset posStride = .ok vertexCount ∧
      bytesPerComponent posA.typeEnum = .ok posCompBytes ∧
      loopE (decodePosVertex dv posA posBuf.binOffset posA.offset posStride posCompBytes options)
        0 vertexCount = .ok posRows ∧
      decodeChannel true dv selected.buffersById
        (findNormalAttrib (sortAttribs selected.draw.attribs)) vertexCount 3 = .ok normals ∧
      decodeChannel true dv selected.buffersById
        (findUvAttrib (sortAttribs selected.draw.attribs)) vertexCount 2 = .ok uvs ∧
      g = ⟨(rawIdx.map jsToUint32).take idxLen, posRows.flatten, normals, uvs⟩ := by
  simp only [buildGltf] at hok
  cases hpos : findPositionAttrib (sortAttribs selected.draw.attribs) with
  | none => simp only [hpos] at hok; cases hok
  | some posA =>
  simp only [hpos] at hok
  cases hpb : lookupBuffer selected.buffersById posA.bufferId with
  | none => simp only [hpb] at hok; cases hok
  | some posBuf =>
  simp only [hpb] at hok
  cases hib : resolveIndexBuffer selected.buffersById selected.draw with
  | none => simp only [hib] at hok; cases hok
  | some idxBuf =>
  simp only [hib] at hok
  rw [exBind_ok] at hok
  obtain ⟨posStride, hstride, hok⟩ := hok
  rw [exBind_ok] at hok
  obtain ⟨idxBpc, hbpc, hok⟩ := hok
  rw [exBind_ok] at hok
  obtain ⟨idxLen, hlen, hok⟩ := hok
  rw [exBind_ok] at hok
  obtain ⟨rawIdx, hraw, hok⟩ := hok
  rw [exBind_ok] at hok
  obtain ⟨vertexCount, hvc, hok⟩ := hok
  rw [exBind_ok] at hok
  obtain ⟨posCompBytes, hpcb, hok⟩ := hok
  rw [exBind_ok] at hok
  obtain ⟨posRows, hrows, hok⟩ := hok
  rw [exBind_ok] at hok
  obtain ⟨normals, hnrm, hok⟩ := hok
  rw [exBind_ok] at hok
  obtain ⟨uvs, huv, hok⟩ := hok
  rw [pure_eq_ok, Except.ok.injEq] at hok
  exact ⟨posA, posBuf, idxBuf, posStride, idxBpc, idxLen, rawIdx, vertexCount, posCompBytes,
    posRows, normals, uvs, rfl, hpb, rfl, hstride, hbpc, hlen, hraw, hvc, hpcb, hrows,
    hnrm, huv, hok.symm⟩

theorem insertAttrib_mem (a x : Attribute) :
    ∀ l : List Attribute, x ∈ insertAttrib a l ↔ x = a ∨ x ∈ l := by
  intro l
  induction l with
  | nil => simp [insertAttrib]
  | cons b bs ih =>
    by_cases h : a.index ≤ b.index
    · simp [insertAttrib, h]
    · simp only [insertAttrib, if_neg h, List.mem_cons, ih]
      tauto

theorem insertAttrib_pairwise (a : Attribute) :
    ∀ l : List Attribute, l.Pairwise (fun x y => x.index ≤ y.index) →
      (insertAttrib a l).Pairwise (fun x y => x.index ≤ y.index) := by
  intro l
  induction l with
  | nil => intro _; simp [insertAttrib]
  | cons b bs ih =>
    intro h
    rw [List.pairwise_cons] at h
    by_cases hab : a.index ≤ b.index
    · rw [insertAttrib, if_pos hab, List.pairwise_cons]
      refine ⟨?_, List.pairwise_cons.mpr h⟩
      intro x hx
      rcases List.mem_cons.mp hx with rfl | hx
      · exact hab
      · exact le_trans hab (h.1 x hx)
    · rw [insertAttrib, if_neg hab, List.pairwise_cons]
      refine ⟨?_, ih h.2⟩
      intro x hx
      rcases (insertAttrib_mem a x bs).mp hx with rfl | hx
      · exact le_of_not_le hab
      · exact h.1 x hx

theorem insertAttrib_perm (a : Attribute) :
    ∀ l : List Attribute, (insertAttrib a l).Perm (a :: l) := by
  intro l
  induction l with
  | nil => simp [insertAttrib]
  | cons b bs ih =>
    by_cases h : a.index ≤ b.index
    · rw [insertAttrib, if_pos h]
    · rw [insertAttrib, if_neg h]
      exact List.Perm.trans (List.Perm.cons b ih) (List.Perm.swap a b bs)

theorem sortAttribs_pairwise (l : List Attribute) :
    (sortAttribs l).Pairwise (fun x y => x.index ≤ y.index) := by
  induction l with
  | nil => simp [sortAttribs]
  | cons a as ih => exact insertAttrib_pairwise a (sortAttribs as) ih

theorem sortAttribs_perm (l : List Attribute) : (sortAttribs l).Perm l := by
  induction l with
  | nil => simp [sortAttribs]
  | cons a as ih =>
    exact List.Perm.trans (insertAttrib_perm a (sortAttribs as)) (List.Perm.cons a ih)

theorem decodeChannel_none_of_attrib_none (typedAlloc : Bool) (dv : DataView)
    (buffersById : List BufferEntry) (vertexCount comps : Nat) :
    decodeChannel typedAlloc dv buffersById none vertexCount comps = .ok none := rfl

theorem decodeChannel_none_of_buffer_none (typedAlloc : Bool) (dv : DataView)
    (buffersById : List BufferEntry) (a : Attribute) (vertexCount comps : Nat)
    (h : lookupBuffer buffersById a.bufferId = none) :
    decodeChannel typedAlloc dv buffersById (some a) vertexCount comps = .ok none := by
  simp only [decodeChannel, h]

/-- C5: the classifier scans the attribute list sorted ascending by slot
index (stably, so the sorted list is a permutation) and takes the first
match; the position heuristic accepts exactly component count 3 with 32-bit
float or unnormalized 16-bit unsigned; a missing position candidate makes
the decode fail with `MissingPositionAttribute`, while a missing normal or
UV candidate leaves the decode's result without that channel, raising no
error. -/
theorem C5_classifier (dv : DataView) (selected : SelectedDraw) (options : DecodeOptions) :
    (sortAttribs selected.draw.attribs).Pairwise (fun x y => x.index ≤ y.index) ∧
    (sortAttribs selected.draw.attribs).Perm selected.draw.attribs ∧
    (∀ a : Attribute, isPositionAttrib a = true ↔
      (a.size = 3 ∧ (a.typeEnum = 5126 ∨ (a.typeEnum = 5123 ∧ a.normalized = false)))) ∧
    (findPositionAttrib (sortAttribs selected.draw.attribs) = none →
      buildGltf dv selected options = .error .missingPositionAttribute) ∧
    (∀ posA, findPositionAttrib (sortAttribs selected.draw.attribs) = some posA →
      isPositionAttrib posA = true ∧
      ∃ pre post, sortAttribs selected.draw.attribs = pre ++ posA :: post ∧
        ∀ a ∈ pre, isPositionAttrib a = false) ∧
    (findNormalAttrib (sortAttribs selected.draw.attribs) = none →
      ∀ g, buildGltf dv selected options = .ok g → g.normals = none) ∧
    (findUvAttrib (sortAttribs selected.draw.attribs) = none →
      ∀ g, buildGltf dv selected options = .ok g → g.uvs = none) := by
  refine ⟨sortAttribs_pairwise _, sortAttribs_perm _, ?_, ?_, ?_, ?_, ?_⟩
  · intro a
    simp [isPositionAttrib, Bool.and_eq_true, Bool.or_eq_true, Bool.not_eq_true']
  · intro hnone
    simp only [buildGltf, hnone]
  · intro posA hfind
    obtain ⟨hp, pre, post, hsplit, hpre⟩ := find?_first isPositionAttrib _ posA hfind
    exact ⟨hp, pre, post, hsplit, fun a ha => by simpa using hpre a ha⟩
  · intro hnone g hok
    obtain ⟨posA, posBuf, idxBuf, posStride, idxBpc, idxLen, rawIdx, vertexCount, posCompBytes,
      posRows, normals, uvs, _, _, _, _, _, _, _, _, _, _, hnrm, _, hg⟩ :=
      buildGltf_ok_inv dv selected options g hok
    rw [hnone, decodeChannel_none_of_attrib_none] at hnrm
    cases hnrm
    rw [hg]
  · intro hnone g hok
    obtain ⟨posA, posBuf, idxBuf, posStride, idxBpc, idxLen, rawIdx, vertexCount, posCompBytes,
      posRows, normals, uvs, _, _, _, _, _, _, _, _, _, _, _, huv, hg⟩ :=
      buildGltf_ok_inv dv selected options g hok
    rw [hnone, decodeChannel_none_of_attrib_none] at huv
    cases huv
    rw [hg]

/-- C6: a selection whose map lacks the buffer descriptor of the classified
position attribute, or of the draw call's (present, non-zero) index buffer
id, makes the decode fail with the corresponding `MissingBufferDescriptor`
error and produce no geometry; a missing descriptor for a normal or UV
attribute does not fail and the emitted result simply lacks that channel. -/
theorem C6_missing_buffer_descriptor (dv : DataView) (selected : SelectedDraw)
    (options : DecodeOptions) :
    (∀ posA, findPositionAttrib (sortAttribs selected.draw.attribs) = some posA →
      lookupBuffer selected.buffersById posA.bufferId = none →
      buildGltf dv selected options = .error (.missingBufferDescriptor .position)) ∧
    (∀ posA posBuf, findPositionAttrib (sortAttribs selected.draw.attribs) = some posA →
      lookupBuffer selected.buffersById posA.bufferId = some posBuf →
      ∀ bid, selected.draw.elementArrayBufferId = some bid → bid ≠ 0 →
        lookupBuffer selected.buffersById bid = none →
        buildGltf dv selected options = .error (.missingBufferDescriptor .index)) ∧
    (∀ nrmA, findNormalAttrib (sortAttribs selected.draw.attribs) = some nrmA →
      lookupBuffer selected.buffersById nrmA.bufferId = none →
      ∀ g, buildGltf dv selected options = .ok g → g.normals = none) ∧
    (∀ uvA, findUvAttrib (sortAttribs selected.draw.attribs) = some uvA →
      lookupBuffer selected.buffersById uvA.bufferId = none →
      ∀ g, buildGltf dv selected options = .ok g → g.uvs = none) := by
  refine ⟨?_, ?_, ?_, ?_⟩
  · intro posA hpos hlk
    simp only [buildGltf, hpos, hlk]
  · intro posA posBuf hpos hpb bid hid hbid hlk
    have hri : resolveIndexBuffer selected.buffersById selected.draw = none := by
      simp only [resolveIndexBuffer, hid, if_pos hbid, hlk]
    simp only [buildGltf, hpos, hpb, hri]
  · intro nrmA hfind hlk g hok
    obtain ⟨posA, posBuf, idxBuf, posStride, idxBpc, idxLen, rawIdx, vertexCount, posCompBytes,
      posRows, normals, uvs, _, _, _, _, _, _, _, _, _, _, hnrm, _, hg⟩ :=
      buildGltf_ok_inv dv selected options g hok
    rw [hfind, decodeChannel_none_of_buffer_none true dv selected.buffersById nrmA
      vertexCount 3 hlk] at hnrm
    cases hnrm
    rw [hg]
  · intro uvA hfind hlk g hok
    obtain ⟨posA, posBuf, idxBuf, posStride, idxBpc, idxLen, rawIdx, vertexCount, posCompBytes,
      posRows, normals, uvs, _, _, _, _, _, _, _, _, _, _, _, huv, hg⟩ :=
      buildGltf_ok_inv dv selected options g hok
    rw [hfind, decodeChannel_none_of_buffer_none true dv selected.buffersById uvA
      vertexCount 2 hlk] at huv
    cases huv
    rw [hg]


/-! ### C1 — position decoding -/

/-- The claim's normalization step: applied exactly when the attribute's
`normalized` flag is set. -/
def claimNormalize (a : Attribute) (v : ℚ) : ℚ :=
  if a.normalized then normalizeInt v a.typeEnum else v

/-- The claim's affine transform on a position triple: scale and per-axis
bias, then swap Y/Z as a pair, then negate the (post-swap) Z. -/
def claimTransform (o : DecodeOptions) (v : ℚ × ℚ × ℚ) : ℚ × ℚ × ℚ :=
  let scaled := (v.1 * o.scale + o.biasX, v.2.1 * o.scale + o.biasY, v.2.2 * o.scale + o.biasZ)
  let swapped := if o.swapYZ then (scaled.1, scaled.2.2, scaled.2.1) else scaled
  if o.invertZ then (swapped.1, swapped.2.1, -swapped.2.2) else swapped

theorem decodePosVertex_eq (dv : DataView) (posA : Attribute)
    (binOffset posOffset posStride posCompBytes : Nat) (options : DecodeOptions)
    (i : Nat) (r : List ℚ)
    (h : decodePosVertex dv posA binOffset posOffset posStride posCompBytes options i = .ok r) :
    ∃ x y z : ℚ,
      readScalar dv (binOffset + posOffset + i * posStride + 0 * posCompBytes) posA.typeEnum
        = .ok x ∧
      readScalar dv (binOffset + posOffset + i * posStride + 1 * posCompBytes) posA.typeEnum
        = .ok y ∧
      readScalar dv (binOffset + posOffset + i * posStride + 2 * posCompBytes) posA.typeEnum
        = .ok z ∧
      r = [(claimTransform options
              (claimNormalize posA x, claimNormalize posA y, claimNormalize posA z)).1,
           (claimTransform options
              (claimNormalize posA x, claimNormalize posA y, claimNormalize posA z)).2.1,
           (claimTransform options
              (claimNormalize posA x, claimNormalize posA y, claimNormalize posA z)).2.2] := by
  simp only [decodePosVertex] at h
  rw [exBind_ok] at h
  obtain ⟨x, hx, h⟩ := h
  rw [exBind_ok] at h
  obtain ⟨y, hy, h⟩ := h
  rw [exBind_ok] at h
  obtain ⟨z, hz, h⟩ := h
  rw [pure_eq_ok, Except.ok.injEq] at h
  refine ⟨x, y, z, hx, hy, hz, ?_⟩
  rw [← h]
  cases hs : options.swapYZ <;> cases hi : options.invertZ <;>
    simp [claimTransform, claimNormalize, hs, hi]

theorem decodePosVertex_length (dv : DataView) (posA : Attribute)
    (binOffset posOffset posStride posCompBytes : Nat) (options : DecodeOptions)
    (i : Nat) (r : List ℚ)
    (h : decodePosVertex dv posA binOffset posOffset posStride posCompBytes options i = .ok r) :
    r.length = 3 := by
  obtain ⟨x, y, z, _, _, _, hr⟩ :=
    decodePosVertex_eq dv posA binOffset posOffset posStride posCompBytes options i r h
  simp [hr]

theorem loopE_rows_length {k : Nat} (f : Nat → Except Err (List ℚ)) (c : Nat)
    (rows : List (List ℚ)) (hrows : loopE f 0 c = .ok rows)
    (hlen : ∀ i r, f i = .ok r → r.length = k) : ∀ r ∈ rows, r.length = k := by
  intro r hr
  obtain ⟨i, hi, hget⟩ := List.mem_iff_getElem.mp hr
  have hc : rows.length = c := loopE_ok_length f c 0 rows hrows
  have hgd : rows.getD i [] = r := by
    rw [List.getD_eq_getElem?_getD, List.getElem?_eq_getElem hi, Option.getD_some, hget]
  have := loopE_ok_getD f [] c 0 rows hrows i (by omega)
  rw [Nat.zero_add, hgd] at this
  exact hlen i r this

theorem getStride_eq (a : Attribute) (w s : Nat)
    (hw : bytesPerComponent a.typeEnum = .ok w) (hs : getStride a = .ok s) :
    s = if a.stride ≠ 0 then a.stride else a.size * w := by
  by_cases h0 : a.stride ≠ 0
  · rw [getStride, if_pos h0] at hs
    cases hs
    rw [if_pos h0]
  · rw [getStride, if_neg h0] at hs
    rw [hw, ok_bind] at hs
    cases hs
    rw [if_neg h0]

theorem posVertexCountE_eq (len off s vc : Nat) (hs : s ≠ 0)
    (h : posVertexCountE len off s = .ok vc) :
    0 ≤ Int.fdiv ((len : Int) - (off : Int)) (s : Int) ∧
    (vc : Int) = Int.fdiv ((len : Int) - (off : Int)) (s : Int) := by
  rw [posVertexCountE, if_neg hs] at h
  by_cases hneg : Int.fdiv ((len : Int) - (off : Int)) (s : Int) < 0
  · rw [if_pos hneg] at h
    cases h
  · rw [if_neg hneg] at h
    cases h
    push_neg at hneg
    exact ⟨hneg, Int.toNat_of_nonneg hneg⟩

/-- C1: for every successful decode, the position channel has vertex count
`floor((positionBuffer.byteLength - attributeOffset) / effectiveStride)`
with the effective stride being the recorded stride when non-zero and
`componentCount × componentByteWidth` otherwise; vertex `i`'s three
components are read little-endian at
`bufferBase + attributeOffset + i*effectiveStride + component*componentByteWidth`,
normalized exactly when the attribute's `normalized` flag is set, then
scaled and biased, then Y/Z-swapped as a pair, then Z-negated. -/
theorem C1_position_decoding (dv : DataView) (selected : SelectedDraw)
    (options : DecodeOptions) (g : DecodedGeometry)
    (hok : buildGltf dv selected options = .ok g) :
    ∃ posA posBuf w,
      findPositionAttrib (sortAttribs selected.draw.attribs) = some posA ∧
      lookupBuffer selected.buffersById posA.bufferId = some posBuf ∧
      bytesPerComponent posA.typeEnum = .ok w ∧
      (∀ s, s = (if posA.stride ≠ 0 then posA.stride else posA.size * w) →
        ∀ vc, vc = g.positions.length / 3 →
        g.positions.length = 3 * vc ∧
        (vc : Int) = Int.fdiv ((posBuf.byteLength : Int) - (posA.offset : Int)) (s : Int) ∧
        ∀ i < vc, ∃ x y z : ℚ,
          readScalar dv (posBuf.binOffset + posA.offset + i * s + 0 * w) posA.typeEnum
            = .ok x ∧
          readScalar dv (posBuf.binOffset + posA.offset + i * s + 1 * w) posA.typeEnum
            = .ok y ∧
          readScalar dv (posBuf.binOffset + posA.offset + i * s + 2 * w) posA.typeEnum
            = .ok z ∧
          g.positions.getD (3 * i) 0 = (claimTransform options
            (claimNormalize posA x, claimNormalize posA y, claimNormalize posA z)).1 ∧
          g.positions.getD (3 * i + 1) 0 = (claimTransform options
            (claimNormalize posA x, claimNormalize posA y, claimNormalize posA z)).2.1 ∧
          g.positions.getD (3 * i + 2) 0 = (claimTransform options
            (claimNormalize posA x, claimNormalize posA y, claimNormalize posA z)).2.2) := by
  obtain ⟨posA, posBuf, idxBuf, posStride, idxBpc, idxLen, rawIdx, vertexCount, posCompBytes,
    posRows, normals, uvs, hpos, hpb, hib, hstride, hbpc, hlen, hraw, hvc, hpcb, hrows,
    hnrm, huv, hg⟩ := buildGltf_ok_inv dv selected options g hok
  have hposclass : isPositionAttrib posA = true := List.find?_some hpos
  obtain ⟨s0, hs0, hs0pos⟩ := getStride_of_posAttrib posA hposclass
  have hseq : posStride = s0 := by
    rw [hs0] at hstride
    cases hstride
    rfl
  subst hseq
  have hstride_form : posStride = if posA.stride ≠ 0 then posA.stride else posA.size * posCompBytes :=
    getStride_eq posA posCompBytes posStride hpcb hs0
  have hrowlen : ∀ r ∈ posRows, r.length = 3 :=
    loopE_rows_length _ vertexCount posRows hrows
      (fun i r hr => decodePosVertex_length dv posA posBuf.binOffset posA.offset posStride
        posCompBytes options i r hr)
  have hplen : g.positions.length = 3 * vertexCount := by
    rw [hg]
    simp only [flatten_length_uniform 3 posRows hrowlen,
      loopE_ok_length _ vertexCount 0 posRows hrows]
  have hvceq : g.positions.length / 3 = vertexCount := by omega
  obtain ⟨hfnonneg, hfdiv⟩ :=
    posVertexCountE_eq posBuf.byteLength posA.offset posStride vertexCount
      (Nat.pos_iff_ne_zero.mp hs0pos) hvc
  refine ⟨posA, posBuf, posCompBytes, hpos, hpb, hpcb, ?_⟩
  rintro s rfl vc rfl
  rw [hvceq]
  rw [← hstride_form]
  refine ⟨by omega, hfdiv, ?_⟩
  intro i hi
  have hrow := loopE_ok_getD _ [] vertexCount 0 posRows hrows i hi
  rw [Nat.zero_add] at hrow
  obtain ⟨x, y, z, hx, hy, hz, hr⟩ :=
    decodePosVertex_eq dv posA posBuf.binOffset posA.offset posStride posCompBytes options i
      (posRows.getD i []) hrow
  refine ⟨x, y, z, hx, hy, hz, ?_, ?_, ?_⟩
  · rw [hg]
    show posRows.flatten.getD (3 * i) 0 = _
    rw [show 3 * i = 3 * i + 0 from rfl,
      flatten_getD_uniform 3 0 posRows hrowlen i 0
        (by rw [loopE_ok_length _ vertexCount 0 posRows hrows]; omega) (by omega), hr]
    rfl
  · rw [hg]
    show posRows.flatten.getD (3 * i + 1) 0 = _
    rw [flatten_getD_uniform 3 0 posRows hrowlen i 1
        (by rw [loopE_ok_length _ vertexCount 0 posRows hrows]; omega) (by omega), hr]
    rfl
  · rw [hg]
    show posRows.flatten.getD (3 * i + 2) 0 = _
    rw [flatten_getD_uniform 3 0 posRows hrowlen i 2
        (by rw [loopE_ok_length _ vertexCount 0 posRows hrows]; omega) (by omega), hr]
    rfl

/-! ### C8 — optional channel counts -/

theorem decodeChannel_some_inv (typedAlloc : Bool) (dv : DataView)
    (buffersById : List BufferEntry) (a : Attribute) (buf : BufferEntry)
    (vc comps : Nat) (chan : Option (List ℚ))
    (hlk : lookupBuffer buffersById a.bufferId = some buf)
    (h : decodeChannel typedAlloc dv buffersById (some a) vc comps = .ok chan) :
    ∃ stride cnt compBytes rows,
      getStride a = .ok stride ∧
      (if typedAlloc then channelCountE vc buf.byteLength a.offset stride
       else objChannelCountE vc buf.byteLength a.offset stride) = .ok cnt ∧
      bytesPerComponent a.typeEnum = .ok compBytes ∧
      loopE (fun i => readComponents dv a.typeEnum compBytes
        (buf.binOffset + a.offset + i * stride) a.normalized comps) 0 cnt = .ok rows ∧
      chan = some rows.flatten := by
  simp only [decodeChannel, hlk] at h
  rw [exBind_ok] at h
  obtain ⟨stride, hstride, h⟩ := h
  cases typedAlloc with
  | true =>
    simp only [if_true, reduceIte] at h ⊢
    rw [exBind_ok] at h
    obtain ⟨cnt, hcnt, h⟩ := h
    rw [exBind_ok] at h
    obtain ⟨compBytes, hcb, h⟩ := h
    rw [exBind_ok] at h
    obtain ⟨rows, hrows, h⟩ := h
    rw [pure_eq_ok, Except.ok.injEq] at h
    exact ⟨stride, cnt, compBytes, rows, hstride, hcnt, hcb, hrows, h.symm⟩
  | false =>
    simp only [Bool.false_eq_true, if_false, reduceIte] at h ⊢
    rw [exBind_ok] at h
    obtain ⟨cnt, hcnt, h⟩ := h
    rw [exBind_ok] at h
    obtain ⟨compBytes, hcb, h⟩ := h
    rw [exBind_ok] at h
    obtain ⟨rows, hrows, h⟩ := h
    rw [pure_eq_ok, Except.ok.injEq] at h
    exact ⟨stride, cnt, compBytes, rows, hstride, hcnt, hcb, hrows, h.symm⟩

theorem channelCountE_eq (vc len off s cnt : Nat) (hs : s ≠ 0)
    (h : channelCountE vc len off s = .ok cnt) :
    ((cnt : Nat) : Int) =
      min ((vc : Nat) : Int) (Int.fdiv ((len : Int) - (off : Int)) (s : Int)) ∧
    cnt ≤ vc := by
  rw [channelCountE, if_neg hs] at h
  by_cases hneg : min ((vc : Nat) : Int) (Int.fdiv ((len : Int) - (off : Int)) (s : Int)) < 0
  · rw [if_pos hneg] at h
    cases h
  · rw [if_neg hneg] at h
    cases h
    push_neg at hneg
    constructor
    · exact Int.toNat_of_nonneg hneg
    · have hle : min ((vc : Nat) : Int) (Int.fdiv ((len : Int) - (off : Int)) (s : Int)) ≤
          (vc : Int) := min_le_left _ _
      omega

theorem readComponents_length (dv : DataView) (typeEnum compBytes base : Nat)
    (normalized : Bool) (comps : Nat) (r : List ℚ)
    (h : readComponents dv typeEnum compBytes base normalized comps = .ok r) :
    r.length = comps := by
  rw [readComponents] at h
  exact loopE_ok_length _ comps 0 r h

theorem positions_length_eq (dv : DataView) (posA : Attribute)
    (binOffset posOffset posStride posCompBytes : Nat) (options : DecodeOptions)
    (vertexCount : Nat) (posRows : List (List ℚ))
    (hrows : loopE (decodePosVertex dv posA binOffset posOffset posStride posCompBytes options)
      0 vertexCount = .ok posRows) :
    posRows.flatten.length = 3 * vertexCount := by
  have hrowlen : ∀ r ∈ posRows, r.length = 3 :=
    loopE_rows_length _ vertexCount posRows hrows
      (fun i r hr => decodePosVertex_length dv posA binOffset posOffset posStride
        posCompBytes options i r hr)
  rw [flatten_length_uniform 3 posRows hrowlen,
    loopE_ok_length _ vertexCount 0 posRows hrows]

/-- C8: for every successful decode, each decoded optional channel (normal,
UV) has element count `min(position vertex count, floor((channelBuffer.byteLength
- channelOffset) / channelStride))`, and therefore never more elements than
either its own buffer supports or the position channel has. -/
theorem C8_channel_counts (dv : DataView) (selected : SelectedDraw) (options : DecodeOptions)
    (g : DecodedGeometry) (hok : buildGltf dv selected options = .ok g) :
    (∀ l, g.normals = some l →
      ∃ nrmA nrmBuf stride,
        findNormalAttrib (sortAttribs selected.draw.attribs) = some nrmA ∧
        lookupBuffer selected.buffersById nrmA.bufferId = some nrmBuf ∧
        getStride nrmA = .ok stride ∧
        l.length % 3 = 0 ∧
        ((l.length / 3 : Nat) : Int) = min ((g.positions.length / 3 : Nat) : Int)
          (Int.fdiv ((nrmBuf.byteLength : Int) - (nrmA.offset : Int)) (stride : Int)) ∧
        l.length / 3 ≤ g.positions.length / 3) ∧
    (∀ l, g.uvs = some l →
      ∃ uvA uvBuf stride,
        findUvAttrib (sortAttribs selected.draw.attribs) = some uvA ∧
        lookupBuffer selected.buffersById uvA.bufferId = some uvBuf ∧
        getStride uvA = .ok stride ∧
        l.length % 2 = 0 ∧
        ((l.length / 2 : Nat) : Int) = min ((g.positions.length / 3 : Nat) : Int)
          (Int.fdiv ((uvBuf.byteLength : Int) - (uvA.offset : Int)) (stride : Int)) ∧
        l.length / 2 ≤ g.positions.length / 3) := by
  obtain ⟨posA, posBuf, idxBuf, posStride, idxBpc, idxLen, rawIdx, vertexCount, posCompBytes,
    posRows, normals, uvs, hpos, hpb, hib, hstride, hbpc, hlen, hraw, hvc, hpcb, hrows,
    hnrm, huv, hg⟩ := buildGltf_ok_inv dv selected options g hok
  have hplen : g.positions.length = 3 * vertexCount := by
    rw [hg]
    exact positions_length_eq dv posA posBuf.binOffset posA.offset posStride posCompBytes
      options vertexCount posRows hrows
  have hvceq : g.positions.length / 3 = vertexCount := by omega
  constructor
  · intro l hl
    cases hfind : findNormalAttrib (sortAttribs selected.draw.attribs) with
    | none =>
      rw [hfind, decodeChannel_none_of_attrib_none] at hnrm
      cases hnrm
      rw [hg] at hl
      cases hl
    | some nrmA =>
    rw [hfind] at hnrm
    cases hlk : lookupBuffer selected.buffersById nrmA.bufferId with
    | none =>
      rw [decodeChannel_none_of_buffer_none true dv selected.buffersById nrmA vertexCount 3 hlk]
        at hnrm
      cases hnrm
      rw [hg] at hl
      cases hl
    | some nrmBuf =>
    obtain ⟨stride, cnt, compBytes, rows, hstr, hcnt, hcb, hrws, hchan⟩ :=
      decodeChannel_some_inv true dv selected.buffersById nrmA nrmBuf vertexCount 3 normals
        hlk hnrm
    rw [if_pos rfl] at hcnt
    have hncls : isNormalAttrib nrmA = true := List.find?_some hfind
    obtain ⟨s0, hs0, hs0pos⟩ := getStride_of_nrmAttrib nrmA hncls
    have hseq : stride = s0 := by
      rw [hs0] at hstr
      cases hstr
      rfl
    subst hseq
    obtain ⟨hmin, hle⟩ :=
      channelCountE_eq vertexCount nrmBuf.byteLength nrmA.offset stride cnt
        (Nat.pos_iff_ne_zero.mp hs0pos) hcnt
    have hrowlen : ∀ r ∈ rows, r.length = 3 :=
      loopE_rows_length _ cnt rows hrws
        (fun i r hr => readComponents_length dv nrmA.typeEnum compBytes
          (nrmBuf.binOffset + nrmA.offset + i * stride) nrmA.normalized 3 r hr)
    have hlval : l = rows.flatten := by
      rw [hg] at hl
      simp only [hchan, Option.some.injEq] at hl
      exact hl.symm
    have hllen : l.length = 3 * cnt := by
      rw [hlval, flatten_length_uniform 3 rows hrowlen, loopE_ok_length _ cnt 0 rows hrws]
    refine ⟨nrmA, nrmBuf, stride, rfl, hlk, hs0, by omega, ?_, ?_⟩
    · rw [hvceq, show l.length / 3 = cnt from by omega]
      exact hmin
    · rw [hvceq, show l.length / 3 = cnt from by omega]
      exact hle
  · intro l hl
    cases hfind : findUvAttrib (sortAttribs selected.draw.attribs) with
    | none =>
      rw [hfind, decodeChannel_none_of_attrib_none] at huv
      cases huv
      rw [hg] at hl
      cases hl
    | some uvA =>
    rw [hfind] at huv
    cases hlk : lookupBuffer selected.buffersById uvA.bufferId with
    | none =>
      rw [decodeChannel_none_of_buffer_none true dv selected.buffersById uvA vertexCount 2 hlk]
        at huv
      cases huv
      rw [hg] at hl
      cases hl
    | some uvBuf =>
    obtain ⟨stride, cnt, compBytes, rows, hstr, hcnt, hcb, hrws, hchan⟩ :=
      decodeChannel_some_inv true dv selected.buffersById uvA uvBuf vertexCount 2 uvs
        hlk huv
    rw [if_pos rfl] at hcnt
    have hucls : isUvAttrib uvA = true := List.find?_some hfind
    obtain ⟨s0, hs0, hs0pos⟩ := getStride_of_uvAttrib uvA hucls
    have hseq : stride = s0 := by
      rw [hs0] at hstr
      cases hstr
      rfl
    subst hseq
    obtain ⟨hmin, hle⟩ :=
      channelCountE_eq vertexCount uvBuf.byteLength uvA.offset stride cnt
        (Nat.pos_iff_ne_zero.mp hs0pos) hcnt
    have hrowlen : ∀ r ∈ rows, r.length = 2 :=
      loopE_rows_length _ cnt rows hrws
        (fun i r hr => readComponents_length dv uvA.typeEnum compBytes
          (uvBuf.binOffset + uvA.offset + i * stride) uvA.normalized 2 r hr)
    have hlval : l = rows.flatten := by
      rw [hg] at hl
      simp only [hchan, Option.some.injEq] at hl
      exact hl.symm
    have hllen : l.length = 2 * cnt := by
      rw [hlval, flatten_length_uniform 2 rows hrowlen, loopE_ok_length _ cnt 0 rows hrws]
    refine ⟨uvA, uvBuf, stride, rfl, hlk, hs0, by omega, ?_, ?_⟩
    · rw [hvceq, show l.length / 2 = cnt from by omega]
      exact hmin
    · rw [hvceq, show l.length / 2 = cnt from by omega]
      exact hle

/-! ### Concrete witness captures -/

def wPosA : Attribute := ⟨0, 3, 5123, false, 0, 0, 2⟩

/-- Witness draw call: two triangles' worth of metadata over the two-vertex
position buffer. -/
def wDraw : DrawCall := ⟨"drawElements", 4, JsNum.fin 2, 5123, 0, some 1, [wPosA]⟩

/-- Witness selection: index buffer (id 1) and position buffer (id 2). -/
def wSel : SelectedDraw := ⟨wDraw, [⟨1, 0, 4⟩, ⟨2, 4, 12⟩]⟩

/-- Witness raw bytes: two little-endian u16 indices, then two vertices of
three u16 components each. -/
def wDv : DataView :=
  ⟨16, fun addr => [1, 0, 2, 0, 1, 0, 2, 0, 3, 0, 0, 0, 0, 0, 0, 0].getD addr 0⟩

/-- Witness options: scale 2, bias (1, 0, 0), swap Y/Z, invert Z. -/
def wOpts : DecodeOptions := ⟨2, 1, 0, 0, true, true⟩

def wG : DecodedGeometry := ⟨[1, 2], [3, 6, -4, 1, 0, 0], none, none⟩

theorem wG_eval : buildGltf wDv wSel wOpts = .ok wG := by
  norm_num [buildGltf, wSel, wDraw, wPosA, wDv, wOpts, wG, sortAttribs, insertAttrib,
    findPositionAttrib, findNormalAttrib, findUvAttrib, isPositionAttrib, isNormalAttrib,
    isUvAttrib, List.find?, lookupBuffer, resolveIndexBuffer, getStride, bytesPerComponent,
    uint32ArrayLength, jsLoopCount, loopE, readScalar, checkedRead, leWord, DataView.byte,
    posVertexCountE, Int.fdiv, decodePosVertex, decodeChannel, normalizeInt, jsToUint32,
    ok_bind, error_bind, pure_eq_ok, bind, Except.bind, pure, Except.pure]
  decide

def w8NrmA : Attribute := ⟨1, 3, 5120, true, 0, 0, 3⟩

def w8UvA : Attribute := ⟨2, 2, 5121, true, 0, 0, 4⟩

def w8Draw : DrawCall := ⟨"drawElements", 4, JsNum.fin 2, 5123, 0, some 1, [⟨0, 3, 5123, false, 0, 0, 2⟩, w8NrmA, w8UvA]⟩

def w8Sel : SelectedDraw := ⟨w8Draw, [⟨1, 0, 4⟩, ⟨2, 4, 12⟩, ⟨3, 16, 5⟩, ⟨4, 21, 6⟩]⟩

def w8Dv : DataView :=
  ⟨27, fun addr => [1, 0, 2, 0, 1, 0, 2, 0, 3, 0, 0, 0, 0, 0, 0, 0,
    127, 129, 0, 0, 0, 255, 0, 51, 0, 0, 0].getD addr 0⟩

def w8Opts : DecodeOptions := ⟨1, 0, 0, 0, false, false⟩

theorem w8IdxRead : loopE (fun i => readScalar w8Dv (i * 2) 5123) 0 2 = .ok [(1 : ℚ), 2] := by
  norm_num [loopE, readScalar, checkedRead, leWord, DataView.byte, w8Dv,
    ok_bind, bind, Except.bind, pure, Except.pure]

theorem w8PosRows : loopE (decodePosVertex w8Dv ⟨0, 3, 5123, false, 0, 0, 2⟩ 4 0 6 2 w8Opts) 0 2 =
    .ok [[(1 : ℚ), 2, 3], [0, 0, 0]] := by
  norm_num [loopE, decodePosVertex, readScalar, checkedRead, leWord, DataView.byte, w8Dv,
    w8Opts, normalizeInt, ok_bind, bind, Except.bind, pure, Except.pure]

theorem w8NrmRows : loopE (fun i => readComponents w8Dv 5120 1 (16 + i * 3) true 3) 0 1 =
    .ok [[(1 : ℚ), -1, 0]] := by
  norm_num [loopE, readComponents, readScalar, checkedRead, leWord, DataView.byte,
    w8Dv, toSigned, normalizeInt, ok_bind, bind, Except.bind, pure, Except.pure]

theorem w8Sorted : sortAttribs [(⟨0, 3, 5123, false, 0, 0, 2⟩ : Attribute),
    ⟨1, 3, 5120, true, 0, 0, 3⟩, ⟨2, 2, 5121, true, 0, 0, 4⟩] =
    [⟨0, 3, 5123, false, 0, 0, 2⟩, ⟨1, 3, 5120, true, 0, 0, 3⟩,
      ⟨2, 2, 5121, true, 0, 0, 4⟩] := by decide

theorem w8ResolveIdx : resolveIndexBuffer [(⟨1, 0, 4⟩ : BufferEntry), ⟨2, 4, 12⟩, ⟨3, 16, 5⟩,
    ⟨4, 21, 6⟩] ⟨"drawElements", 4, JsNum.fin 2, 5123, 0, some 1,
    [⟨0, 3, 5123, false, 0, 0, 2⟩, ⟨1, 3, 5120, true, 0, 0, 3⟩,
      ⟨2, 2, 5121, true, 0, 0, 4⟩]⟩ = some ⟨1, 0, 4⟩ := by decide

theorem w8UvRows : loopE (fun i => readComponents w8Dv 5121 1 (21 + i * 2) true 2) 0 2 =
    .ok [[(1 : ℚ), 0], [1/5, 0]] := by
  norm_num [loopE, readComponents, readScalar, checkedRead, leWord, DataView.byte,
    w8Dv, toSigned, normalizeInt, ok_bind, bind, Except.bind, pure, Except.pure]

theorem w8NrmChan : decodeChannel true w8Dv [⟨1, 0, 4⟩, ⟨2, 4, 12⟩, ⟨3, 16, 5⟩, ⟨4, 21, 6⟩]
    (some ⟨1, 3, 5120, true, 0, 0, 3⟩) 2 3 = .ok (some [(1 : ℚ), -1, 0]) := by
  have hlk : lookupBuffer [(⟨1, 0, 4⟩ : BufferEntry), ⟨2, 4, 12⟩, ⟨3, 16, 5⟩, ⟨4, 21, 6⟩]
      3 = some ⟨3, 16, 5⟩ := by decide
  have hstr : getStride (⟨1, 3, 5120, true, 0, 0, 3⟩ : Attribute) = .ok 3 := rfl
  have hcnt : channelCountE 2 5 0 3 = .ok 1 := rfl
  have hcb : bytesPerComponent 5120 = .ok 1 := rfl
  simp only [decodeChannel, hlk, hstr, hcnt, hcb, ok_bind, reduceIte, w8NrmRows,
    Nat.add_zero, Nat.zero_add]
  rfl

theorem w8UvChan : decodeChannel true w8Dv [⟨1, 0, 4⟩, ⟨2, 4, 12⟩, ⟨3, 16, 5⟩, ⟨4, 21, 6⟩]
    (some ⟨2, 2, 5121, true, 0, 0, 4⟩) 2 2 = .ok (some [(1 : ℚ), 0, 1/5, 0]) := by
  have hlk : lookupBuffer [(⟨1, 0, 4⟩ : BufferEntry), ⟨2, 4, 12⟩, ⟨3, 16, 5⟩, ⟨4, 21, 6⟩]
      4 = some ⟨4, 21, 6⟩ := by decide
  have hstr : getStride (⟨2, 2, 5121, true, 0, 0, 4⟩ : Attribute) = .ok 2 := rfl
  have hcnt : channelCountE 2 6 0 2 = .ok 2 := rfl
  have hcb : bytesPerComponent 5121 = .ok 1 := rfl
  simp only [decodeChannel, hlk, hstr, hcnt, hcb, ok_bind, reduceIte, w8UvRows,
    Nat.add_zero, Nat.zero_add]
  rfl

theorem w8FindPos : findPositionAttrib [(⟨0, 3, 5123, false, 0, 0, 2⟩ : Attribute),
    ⟨1, 3, 5120, true, 0, 0, 3⟩, ⟨2, 2, 5121, true, 0, 0, 4⟩] =
    some ⟨0, 3, 5123, false, 0, 0, 2⟩ := by decide

theorem w8FindNrm : findNormalAttrib [(⟨0, 3, 5123, false, 0, 0, 2⟩ : Attribute),
    ⟨1, 3, 5120, true, 0, 0, 3⟩, ⟨2, 2, 5121, true, 0, 0, 4⟩] =
    some ⟨1, 3, 5120, true, 0, 0, 3⟩ := by decide

theorem w8FindUv : findUvAttrib [(⟨0, 3, 5123, false, 0, 0, 2⟩ : Attribute),
    ⟨1, 3, 5120, true, 0, 0, 3⟩, ⟨2, 2, 5121, true, 0, 0, 4⟩] =
    some ⟨2, 2, 5121, true, 0, 0, 4⟩ := by decide

theorem w8LookupPos : lookupBuffer [(⟨1, 0, 4⟩ : BufferEntry), ⟨2, 4, 12⟩, ⟨3, 16, 5⟩, ⟨4, 21, 6⟩]
    2 = some ⟨2, 4, 12⟩ := by decide

theorem w8U32Len : uint32ArrayLength (JsNum.fin 2) = .ok 2 := by
  rw [uint32ArrayLength]
  norm_num
  omega

theorem w8LoopCnt : jsLoopCount (JsNum.fin 2) = 2 := by
  rw [jsLoopCount]
  norm_num
  omega

theorem jsToUint32_one : jsToUint32 1 = 1 := by
  norm_num [jsToUint32]

theorem jsToUint32_two : jsToUint32 2 = 2 := by
  norm_num [jsToUint32]
  decide

def w8G : DecodedGeometry :=
  ⟨[1, 2], [1, 2, 3, 0, 0, 0], some [1, -1, 0], some [1, 0, 1/5, 0]⟩

theorem w8G_eval : buildGltf w8Dv w8Sel w8Opts = .ok w8G := by
  have hvc : posVertexCountE 12 0 6 = .ok 2 := rfl
  have hg1 : getStride (⟨0, 3, 5123, false, 0, 0, 2⟩ : Attribute) = .ok 6 := rfl
  have hh : bytesPerComponent 5123 = .ok 2 := rfl
  simp only [buildGltf, w8Sel, w8Draw, w8NrmA, w8UvA, w8G, w8Sorted, w8FindPos, w8FindNrm, w8FindUv, w8LookupPos,
    w8ResolveIdx, hg1, hh, w8U32Len, w8LoopCnt, hvc, ok_bind, Nat.zero_add, Nat.add_zero]
  simp only [w8IdxRead, w8PosRows, w8NrmChan, w8UvChan, ok_bind, Functor.map, Except.map]
  norm_num [jsToUint32_one, jsToUint32_two]
  rfl

/-- C1 witness: the position-decoding theorem applied to a concrete capture
(two unnormalized 16-bit-unsigned vertices, scale 2, bias (1,0,0), swap Y/Z,
invert Z). -/
theorem C1_position_decoding_witness :
    buildGltf wDv wSel wOpts = .ok wG ∧
    ∃ posA posBuf w,
      findPositionAttrib (sortAttribs wSel.draw.attribs) = some posA ∧
      lookupBuffer wSel.buffersById posA.bufferId = some posBuf ∧
      bytesPerComponent posA.typeEnum = .ok w ∧
      (∀ s, s = (if posA.stride ≠ 0 then posA.stride else posA.size * w) →
        ∀ vc, vc = wG.positions.length / 3 →
        wG.positions.length = 3 * vc ∧
        (vc : Int) = Int.fdiv ((posBuf.byteLength : Int) - (posA.offset : Int)) (s : Int) ∧
        ∀ i < vc, ∃ x y z : ℚ,
          readScalar wDv (posBuf.binOffset + posA.offset + i * s + 0 * w) posA.typeEnum
            = .ok x ∧
          readScalar wDv (posBuf.binOffset + posA.offset + i * s + 1 * w) posA.typeEnum
            = .ok y ∧
          readScalar wDv (posBuf.binOffset + posA.offset + i * s + 2 * w) posA.typeEnum
            = .ok z ∧
          wG.positions.getD (3 * i) 0 = (claimTransform wOpts
            (claimNormalize posA x, claimNormalize posA y, claimNormalize posA z)).1 ∧
          wG.positions.getD (3 * i + 1) 0 = (claimTransform wOpts
            (claimNormalize posA x, claimNormalize posA y, claimNormalize posA z)).2.1 ∧
          wG.positions.getD (3 * i + 2) 0 = (claimTransform wOpts
            (claimNormalize posA x, claimNormalize posA y, claimNormalize posA z)).2.2) :=
  ⟨wG_eval, C1_position_decoding wDv wSel wOpts wG wG_eval⟩

/-- C8 witness: the channel-count theorem applied to a concrete capture with
a short normal buffer (one vertex's worth) and a long UV buffer (three
vertices' worth) against two position vertices. -/
theorem C8_channel_counts_witness :
    buildGltf w8Dv w8Sel w8Opts = .ok w8G ∧
    ((∀ l, w8G.normals = some l →
      ∃ nrmA nrmBuf stride,
        findNormalAttrib (sortAttribs w8Sel.draw.attribs) = some nrmA ∧
        lookupBuffer w8Sel.buffersById nrmA.bufferId = some nrmBuf ∧
        getStride nrmA = .ok stride ∧
        l.length % 3 = 0 ∧
        ((l.length / 3 : Nat) : Int) = min ((w8G.positions.length / 3 : Nat) : Int)
          (Int.fdiv ((nrmBuf.byteLength : Int) - (nrmA.offset : Int)) (stride : Int)) ∧
        l.length / 3 ≤ w8G.positions.length / 3) ∧
    (∀ l, w8G.uvs = some l →
      ∃ uvA uvBuf stride,
        findUvAttrib (sortAttribs w8Sel.draw.attribs) = some uvA ∧
        lookupBuffer w8Sel.buffersById uvA.bufferId = some uvBuf ∧
        getStride uvA = .ok stride ∧
        l.length % 2 = 0 ∧
        ((l.length / 2 : Nat) : Int) = min ((w8G.positions.length / 3 : Nat) : Int)
          (Int.fdiv ((uvBuf.byteLength : Int) - (uvA.offset : Int)) (stride : Int)) ∧
        l.length / 2 ≤ w8G.positions.length / 3)) :=
  ⟨w8G_eval, C8_channel_counts w8Dv w8Sel w8Opts w8G w8G_eval⟩

/-! ### C10 — bounds safety -/

theorem bpc_cases (t w : Nat) (h : bytesPerComponent t = .ok w) :
    ((t = 5120 ∨ t = 5121) ∧ w = 1) ∨ ((t = 5122 ∨ t = 5123) ∧ w = 2) ∨
    ((t = 5124 ∨ t = 5125 ∨ t = 5126) ∧ w = 4) := by
  rw [bytesPerComponent] at h
  split_ifs at h with h1 h2 h3 h4 h5 h6 h7 <;> cases h <;> tauto

theorem readScalar_ok_of_inbounds (dv : DataView) (off t w : Nat)
    (hw : bytesPerComponent t = .ok w) (hin : off + w ≤ dv.byteLength) :
    ∃ v, readScalar dv off t = .ok v := by
  rcases bpc_cases t w hw with ⟨ht | ht, hw1⟩ | ⟨ht | ht, hw1⟩ | ⟨ht | ht | ht, hw1⟩ <;>
    subst hw1 <;> subst ht <;> rw [readScalar] <;> simp [checkedRead, hin]

theorem posVertexCountE_error (len off s : Nat) (e : Err)
    (h : posVertexCountE len off s = .error e) : e = .invalidLength := by
  simp only [posVertexCountE] at h
  split_ifs at h <;> cases h <;> rfl

theorem channelCountE_error (vc len off s : Nat) (e : Err)
    (h : channelCountE vc len off s = .error e) : e = .invalidLength := by
  simp only [channelCountE] at h
  split_ifs at h <;> cases h <;> rfl

theorem objChannelCountE_error (vc len off s : Nat) (e : Err)
    (h : objChannelCountE vc len off s = .error e) : e = .invalidLength := by
  simp only [objChannelCountE] at h
  split_ifs at h <;> cases h <;> rfl

theorem objVertexCountE_error (len off s : Nat) (e : Err)
    (h : objVertexCountE len off s = .error e) : e = .invalidLength := by
  simp only [objVertexCountE] at h
  split_ifs at h <;> cases h <;> rfl

theorem posVertexCountE_ok_of_le (len off s : Nat) (hs : s ≠ 0) (hle : off ≤ len) :
    posVertexCountE len off s =
      .ok (Int.toNat (Int.fdiv ((len : Int) - (off : Int)) (s : Int))) := by
  have hnn : 0 ≤ Int.fdiv ((len : Int) - (off : Int)) (s : Int) :=
    Int.fdiv_nonneg (by omega) (by omega)
  rw [posVertexCountE, if_neg hs, if_neg (by omega)]

theorem objChannelCountE_ok_eq (vc len off s : Nat) (hs : s ≠ 0) (cnt : Nat)
    (h : objChannelCountE vc len off s = .ok cnt) :
    channelCountE vc len off s = .ok cnt := by
  rw [objChannelCountE, if_neg hs] at h
  rw [channelCountE, if_neg hs]
  exact h

theorem decodePosVertex_ok_of_inbounds (dv : DataView) (posA : Attribute)
    (binOffset posOffset posStride posCompBytes : Nat) (options : DecodeOptions) (i : Nat)
    (hw : bytesPerComponent posA.typeEnum = .ok posCompBytes)
    (hin : ∀ c < 3, binOffset + posOffset + i * posStride + c * posCompBytes + posCompBytes
      ≤ dv.byteLength) :
    ∃ r, decodePosVertex dv posA binOffset posOffset posStride posCompBytes options i
      = .ok r := by
  obtain ⟨x, hx⟩ := readScalar_ok_of_inbounds dv
    (binOffset + posOffset + i * posStride + 0 * posCompBytes) posA.typeEnum posCompBytes hw
    (hin 0 (by omega))
  obtain ⟨y, hy⟩ := readScalar_ok_of_inbounds dv
    (binOffset + posOffset + i * posStride + 1 * posCompBytes) posA.typeEnum posCompBytes hw
    (hin 1 (by omega))
  obtain ⟨z, hz⟩ := readScalar_ok_of_inbounds dv
    (binOffset + posOffset + i * posStride + 2 * posCompBytes) posA.typeEnum posCompBytes hw
    (hin 2 (by omega))
  simp only [decodePosVertex, hx, hy, hz, ok_bind]
  exact ⟨_, rfl⟩

theorem readComponents_ok_of_inbounds (dv : DataView) (t compBytes base : Nat)
    (normalized : Bool) (comps : Nat)
    (hw : bytesPerComponent t = .ok compBytes)
    (hin : ∀ c < comps, base + c * compBytes + compBytes ≤ dv.byteLength) :
    ∃ r, readComponents dv t compBytes base normalized comps = .ok r := by
  rw [readComponents]
  apply loopE_exists_ok
  intro c hc
  obtain ⟨v, hv⟩ := readScalar_ok_of_inbounds dv (base + c * compBytes) t compBytes hw
    (hin c (by omega))
  simp only [Nat.zero_add, hv, ok_bind]
  exact ⟨_, rfl⟩

theorem decodeChannel_not_rangeError (typedAlloc : Bool) (dv : DataView)
    (buffersById : List BufferEntry) (attribOpt : Option Attribute) (vcN comps : Nat)
    (hcl : ∀ a, attribOpt = some a →
      (∃ w, bytesPerComponent a.typeEnum = .ok w ∧ 0 < w) ∧ a.size ≠ 0)
    (hrd : ∀ a buf s w, attribOpt = some a → lookupBuffer buffersById a.bufferId = some buf →
      getStride a = .ok s → bytesPerComponent a.typeEnum = .ok w →
      ∀ i c : Nat, c < comps →
        (i : Int) < min (vcN : Int) (Int.fdiv ((buf.byteLength : Int) - (a.offset : Int)) (s : Int)) →
        buf.binOffset + a.offset + i * s + c * w + w ≤ dv.byteLength) :
    ∀ e, decodeChannel typedAlloc dv buffersById attribOpt vcN comps = .error e →
      e = Err.invalidLength := by
  intro e h
  cases attribOpt with
  | none => cases h
  | some a =>
  cases hlk : lookupBuffer buffersById a.bufferId with
  | none =>
    rw [decodeChannel_none_of_buffer_none typedAlloc dv buffersById a vcN comps hlk] at h
    cases h
  | some buf =>
  obtain ⟨hbw, hsz⟩ := hcl a rfl
  obtain ⟨w, hw, hwpos⟩ := hbw
  obtain ⟨s, hs, hspos⟩ := stride_ok_of_supported a ⟨w, hw, hwpos⟩ hsz
  simp only [decodeChannel, hlk, hs, ok_bind] at h
  cases typedAlloc with
  | true =>
    simp only [reduceIte] at h
    cases hcnt : channelCountE vcN buf.byteLength a.offset s with
    | error e2 =>
      rw [hcnt, error_bind] at h
      cases h
      exact channelCountE_error vcN buf.byteLength a.offset s e hcnt
    | ok cnt =>
      rw [hcnt, ok_bind, hw, ok_bind] at h
      obtain ⟨hmin, -⟩ := channelCountE_eq vcN buf.byteLength a.offset s cnt
        (Nat.pos_iff_ne_zero.mp hspos) hcnt
      obtain ⟨rows, hrows⟩ := loopE_exists_ok
        (fun i => readComponents dv a.typeEnum w (buf.binOffset + a.offset + i * s)
          a.normalized comps) cnt 0 (fun i hi => by
          simp only [Nat.zero_add]
          exact readComponents_ok_of_inbounds dv a.typeEnum w
            (buf.binOffset + a.offset + i * s) a.normalized comps hw
            (fun c hc => by
              have := hrd a buf s w rfl hlk hs hw i c hc (by omega)
              omega))
      rw [hrows, ok_bind] at h
      cases h
  | false =>
    simp only [Bool.false_eq_true, reduceIte] at h
    cases hcnt : objChannelCountE vcN buf.byteLength a.offset s with
    | error e2 =>
      rw [hcnt, error_bind] at h
      cases h
      exact objChannelCountE_error vcN buf.byteLength a.offset s e hcnt
    | ok cnt =>
      rw [hcnt, ok_bind, hw, ok_bind] at h
      obtain ⟨hmin, -⟩ := channelCountE_eq vcN buf.byteLength a.offset s cnt
        (Nat.pos_iff_ne_zero.mp hspos)
        (objChannelCountE_ok_eq vcN buf.byteLength a.offset s
          (Nat.pos_iff_ne_zero.mp hspos) cnt hcnt)
      obtain ⟨rows, hrows⟩ := loopE_exists_ok
        (fun i => readComponents dv a.typeEnum w (buf.binOffset + a.offset + i * s)
          a.normalized comps) cnt 0 (fun i hi => by
          simp only [Nat.zero_add]
          exact readComponents_ok_of_inbounds dv a.typeEnum w
            (buf.binOffset + a.offset + i * s) a.normalized comps hw
            (fun c hc => by
              have := hrd a buf s w rfl hlk hs hw i c hc (by omega)
              omega))
      rw [hrows, ok_bind] at h
      cases h

theorem uint32ArrayLength_natCast (n : Nat) :
    uint32ArrayLength (JsNum.fin (n : ℚ)) = .ok n := by
  rw [uint32ArrayLength]
  rw [if_neg (not_le.mpr (lt_of_lt_of_le (by norm_num) (Nat.cast_nonneg n)))]
  norm_num

theorem jsLoopCount_natCast (n : Nat) : jsLoopCount (JsNum.fin (n : ℚ)) = n := by
  rw [jsLoopCount]
  norm_num

/-- Whenever every byte address the decode dereferences lies within the raw
buffer and the position buffer's byte length is at least the attribute offset,
every scalar read is in bounds and the decode never returns the out-of-range
read error. -/
theorem buildGltf_inbounds_no_rangeError (dv : DataView) (selected : SelectedDraw)
    (options : DecodeOptions) (posA : Attribute) (posBuf idxBuf : BufferEntry)
    (iw n : Nat)
    (hpos : findPositionAttrib (sortAttribs selected.draw.attribs) = some posA)
    (hpb : lookupBuffer selected.buffersById posA.bufferId = some posBuf)
    (hib : resolveIndexBuffer selected.buffersById selected.draw = some idxBuf)
    (hiw : bytesPerComponent selected.draw.indexTypeEnum = .ok iw)
    (hcount : selected.draw.count = JsNum.fin (n : ℚ))
    (hidxin : ∀ i < n,
      idxBuf.binOffset + selected.draw.indexOffset + i * iw + iw ≤ dv.byteLength)
    (hposoff : posA.offset ≤ posBuf.byteLength)
    (hposin : ∀ s w, getStride posA = .ok s → bytesPerComponent posA.typeEnum = .ok w →
      ∀ i c : Nat, c < 3 →
        (i : Int) < Int.fdiv ((posBuf.byteLength : Int) - (posA.offset : Int)) (s : Int) →
        posBuf.binOffset + posA.offset + i * s + c * w + w ≤ dv.byteLength)
    (hnrmin : ∀ ps a buf s w, getStride posA = .ok ps →
      findNormalAttrib (sortAttribs selected.draw.attribs) = some a →
      lookupBuffer selected.buffersById a.bufferId = some buf →
      getStride a = .ok s → bytesPerComponent a.typeEnum = .ok w →
      ∀ i c : Nat, c < 3 →
        (i : Int) < min
          (((Int.fdiv ((posBuf.byteLength : Int) - (posA.offset : Int)) (ps : Int)).toNat : Int))
          (Int.fdiv ((buf.byteLength : Int) - (a.offset : Int)) (s : Int)) →
        buf.binOffset + a.offset + i * s + c * w + w ≤ dv.byteLength)
    (huvin : ∀ ps a buf s w, getStride posA = .ok ps →
      findUvAttrib (sortAttribs selected.draw.attribs) = some a →
      lookupBuffer selected.buffersById a.bufferId = some buf →
      getStride a = .ok s → bytesPerComponent a.typeEnum = .ok w →
      ∀ i c : Nat, c < 2 →
        (i : Int) < min
          (((Int.fdiv ((posBuf.byteLength : Int) - (posA.offset : Int)) (ps : Int)).toNat : Int))
          (Int.fdiv ((buf.byteLength : Int) - (a.offset : Int)) (s : Int)) →
        buf.binOffset + a.offset + i * s + c * w + w ≤ dv.byteLength) :
    buildGltf dv selected options ≠ .error Err.rangeError := by
  intro h
  have hposclass : isPositionAttrib posA = true := List.find?_some hpos
  obtain ⟨pw, hpw, hpwpos⟩ := bpc_of_posAttrib posA hposclass
  obtain ⟨ps, hps, hpspos⟩ := getStride_of_posAttrib posA hposclass
  simp only [buildGltf, hpos, hpb, hib, hps, ok_bind, hiw, hcount,
    uint32ArrayLength_natCast, jsLoopCount_natCast] at h
  obtain ⟨rawIdx, hraw⟩ := loopE_exists_ok
    (fun i => readScalar dv (idxBuf.binOffset + selected.draw.indexOffset + i * iw)
      selected.draw.indexTypeEnum) n 0 (fun i hi => by
      simp only [Nat.zero_add]
      exact readScalar_ok_of_inbounds dv _ _ iw hiw (hidxin i hi))
  rw [hraw, ok_bind] at h
  rw [posVertexCountE_ok_of_le posBuf.byteLength posA.offset ps
    (Nat.pos_iff_ne_zero.mp hpspos) hposoff, ok_bind, hpw, ok_bind] at h
  obtain ⟨posRows, hrows⟩ := loopE_exists_ok
    (decodePosVertex dv posA posBuf.binOffset posA.offset ps pw options)
    ((Int.fdiv ((posBuf.byteLength : Int) - (posA.offset : Int)) (ps : Int)).toNat) 0
    (fun i hi => by
      simp only [Nat.zero_add]
      exact decodePosVertex_ok_of_inbounds dv posA posBuf.binOffset posA.offset ps pw
        options i hpw (fun c hc => hposin ps pw hps hpw i c hc (by omega)))
  rw [hrows, ok_bind] at h
  cases hnc : decodeChannel true dv selected.buffersById
      (findNormalAttrib (sortAttribs selected.draw.attribs))
      ((Int.fdiv ((posBuf.byteLength : Int) - (posA.offset : Int)) (ps : Int)).toNat) 3 with
  | error e =>
    rw [hnc, error_bind] at h
    cases h
    exact absurd (decodeChannel_not_rangeError true dv selected.buffersById _ _ 3
      (fun a ha => ⟨bpc_of_nrmAttrib a (List.find?_some ha), by
        have := (nrmAttrib_fields a (List.find?_some ha)).1
        omega⟩)
      (fun a buf s w ha hlk hs hw i c hc hlt =>
        hnrmin ps a buf s w hps ha hlk hs hw i c hc hlt)
      Err.rangeError hnc) (by simp)
  | ok normals =>
  rw [hnc, ok_bind] at h
  cases huc : decodeChannel true dv selected.buffersById
      (findUvAttrib (sortAttribs selected.draw.attribs))
      ((Int.fdiv ((posBuf.byteLength : Int) - (posA.offset : Int)) (ps : Int)).toNat) 2 with
  | error e =>
    rw [huc, error_bind] at h
    cases h
    exact absurd (decodeChannel_not_rangeError true dv selected.buffersById _ _ 2
      (fun a ha => ⟨bpc_of_uvAttrib a (List.find?_some ha), by
        have := (uvAttrib_fields a (List.find?_some ha)).1
        omega⟩)
      (fun a buf s w ha hlk hs hw i c hc hlt =>
        huvin ps a buf s w hps ha hlk hs hw i c hc hlt)
      Err.rangeError huc) (by simp)
  | ok uvs =>
  rw [huc, ok_bind] at h
  cases h

theorem checkedRead_error (dv : DataView) (off w : Nat) (conv : Nat → ℚ) (e : Err)
    (h : checkedRead dv off w conv = .error e) : e = Err.rangeError := by
  simp only [checkedRead] at h
  split_ifs at h <;> cases h <;> rfl

theorem readScalar_error_range (dv : DataView) (off t w : Nat)
    (hw : bytesPerComponent t = .ok w) (e : Err)
    (h : readScalar dv off t = .error e) : e = Err.rangeError := by
  rw [readScalar] at h
  split_ifs at h with h1 h2 h3 h4 h5 h6 h7
  · exact checkedRead_error _ _ _ _ _ h
  · exact checkedRead_error _ _ _ _ _ h
  · exact checkedRead_error _ _ _ _ _ h
  · exact checkedRead_error _ _ _ _ _ h
  · exact checkedRead_error _ _ _ _ _ h
  · exact checkedRead_error _ _ _ _ _ h
  · exact checkedRead_error _ _ _ _ _ h
  · rw [bytesPerComponent, if_neg h1, if_neg h2, if_neg h3, if_neg h4, if_neg h5,
      if_neg h6, if_neg h7] at hw
    cases hw

theorem uint32ArrayLength_error (c : JsNum) (e : Err)
    (h : uint32ArrayLength c = .error e) : e = Err.invalidLength := by
  cases c with
  | fin q =>
    simp only [uint32ArrayLength] at h
    split_ifs at h <;> cases h <;> rfl
  | nan => simp only [uint32ArrayLength] at h; cases h
  | inf => simp only [uint32ArrayLength] at h; cases h; rfl
  | negInf => simp only [uint32ArrayLength] at h; cases h; rfl

theorem loopE_error_sub {β : Type} (f : Nat → Except Err β) (P : Err → Prop)
    (hf : ∀ i e, f i = .error e → P e) :
    ∀ (c start : Nat) (e : Err), loopE f start c = .error e → P e := by
  intro c
  induction c with
  | zero => intro start e h; simp only [loopE] at h; cases h
  | succ k ih =>
    intro start e h
    simp only [loopE] at h
    cases hb : f start with
    | error e1 =>
      rw [hb, error_bind] at h
      cases h
      exact hf start _ hb
    | ok b =>
      rw [hb, ok_bind] at h
      cases hr : loopE f (start + 1) k with
      | error e2 =>
        rw [hr, error_bind] at h
        cases h
        exact ih (start + 1) _ hr
      | ok bs =>
        rw [hr, ok_bind] at h
        cases h

theorem readComponents_error_sub (dv : DataView) (t compBytes base w : Nat)
    (normalized : Bool) (comps : Nat) (hw : bytesPerComponent t = .ok w) (e : Err)
    (h : readComponents dv t compBytes base normalized comps = .error e) :
    e = Err.rangeError := by
  rw [readComponents] at h
  refine loopE_error_sub _ (fun e2 => e2 = Err.rangeError) ?_ comps 0 e h
  intro i e2 h2
  cases hr : readScalar dv (base + i * compBytes) t with
  | error e3 =>
    rw [hr, error_bind] at h2
    cases h2
    exact readScalar_error_range dv _ t w hw _ hr
  | ok v =>
    rw [hr, ok_bind] at h2
    cases h2

theorem decodePosVertex_error_sub (dv : DataView) (posA : Attribute)
    (binOffset posOffset posStride posCompBytes : Nat) (options : DecodeOptions)
    (hw : bytesPerComponent posA.typeEnum = .ok posCompBytes) (i : Nat) (e : Err)
    (h : decodePosVertex dv posA binOffset posOffset posStride posCompBytes options i
      = .error e) : e = Err.rangeError := by
  simp only [decodePosVertex] at h
  cases hx : readScalar dv (binOffset + posOffset + i * posStride + 0 * posCompBytes)
      posA.typeEnum with
  | error e1 =>
    rw [hx, error_bind] at h
    cases h
    exact readScalar_error_range dv _ _ posCompBytes hw _ hx
  | ok x =>
  rw [hx, ok_bind] at h
  cases hy : readScalar dv (binOffset + posOffset + i * posStride + 1 * posCompBytes)
      posA.typeEnum with
  | error e1 =>
    rw [hy, error_bind] at h
    cases h
    exact readScalar_error_range dv _ _ posCompBytes hw _ hy
  | ok y =>
  rw [hy, ok_bind] at h
  cases hz : readScalar dv (binOffset + posOffset + i * posStride + 2 * posCompBytes)
      posA.typeEnum with
  | error e1 =>
    rw [hz, error_bind] at h
    cases h
    exact readScalar_error_range dv _ _ posCompBytes hw _ hz
  | ok z =>
  rw [hz, ok_bind] at h
  cases h

theorem decodeChannel_error_sub (typedAlloc : Bool) (dv : DataView)
    (buffersById : List BufferEntry) (attribOpt : Option Attribute) (vcN comps : Nat)
    (hcl : ∀ a, attribOpt = some a →
      (∃ w, bytesPerComponent a.typeEnum = .ok w ∧ 0 < w) ∧ a.size ≠ 0) :
    ∀ e, decodeChannel typedAlloc dv buffersById attribOpt vcN comps = .error e →
      e = Err.rangeError ∨ e = Err.invalidLength := by
  intro e h
  cases attribOpt with
  | none => cases h
  | some a =>
  cases hlk : lookupBuffer buffersById a.bufferId with
  | none =>
    rw [decodeChannel_none_of_buffer_none typedAlloc dv buffersById a vcN comps hlk] at h
    cases h
  | some buf =>
  obtain ⟨hbw, hsz⟩ := hcl a rfl
  obtain ⟨w, hw, hwpos⟩ := hbw
  obtain ⟨s, hs, hspos⟩ := stride_ok_of_supported a ⟨w, hw, hwpos⟩ hsz
  simp only [decodeChannel, hlk, hs, ok_bind] at h
  cases typedAlloc with
  | true =>
    simp only [reduceIte] at h
    cases hcnt : channelCountE vcN buf.byteLength a.offset s with
    | error e2 =>
      rw [hcnt, error_bind] at h
      cases h
      exact Or.inr (channelCountE_error vcN buf.byteLength a.offset s e hcnt)
    | ok cnt =>
      rw [hcnt, ok_bind, hw, ok_bind] at h
      cases hlp : loopE (fun i => readComponents dv a.typeEnum w
          (buf.binOffset + a.offset + i * s) a.normalized comps) 0 cnt with
      | error e2 =>
        rw [hlp, error_bind] at h
        cases h
        refine Or.inl (loopE_error_sub _ (fun e3 => e3 = Err.rangeError) ?_ cnt 0 _ hlp)
        intro i e3 h3
        exact readComponents_error_sub dv a.typeEnum w _ w a.normalized comps hw _ h3
      | ok rows =>
        rw [hlp, ok_bind] at h
        cases h
  | false =>
    simp only [Bool.false_eq_true, reduceIte] at h
    cases hcnt : objChannelCountE vcN buf.byteLength a.offset s with
    | error e2 =>
      rw [hcnt, error_bind] at h
      cases h
      exact Or.inr (objChannelCountE_error vcN buf.byteLength a.offset s e hcnt)
    | ok cnt =>
      rw [hcnt, ok_bind, hw, ok_bind] at h
      cases hlp : loopE (fun i => readComponents dv a.typeEnum w
          (buf.binOffset + a.offset + i * s) a.normalized comps) 0 cnt with
      | error e2 =>
        rw [hlp, error_bind] at h
        cases h
        refine Or.inl (loopE_error_sub _ (fun e3 => e3 = Err.rangeError) ?_ cnt 0 _ hlp)
        intro i e3 h3
        exact readComponents_error_sub dv a.typeEnum w _ w a.normalized comps hw _ h3
      | ok rows =>
        rw [hlp, ok_bind] at h
        cases h

/-- Once the position attribute is classified, its buffer and the index buffer
resolve, and the index component type is supported, every remaining failure of
the decode is the untyped out-of-range read or invalid-length allocation error
— never a taxonomy error. -/
theorem buildGltf_error_sub (dv : DataView) (selected : SelectedDraw)
    (options : DecodeOptions) (posA : Attribute) (posBuf idxBuf : BufferEntry) (iw : Nat)
    (hpos : findPositionAttrib (sortAttribs selected.draw.attribs) = some posA)
    (hpb : lookupBuffer selected.buffersById posA.bufferId = some posBuf)
    (hib : resolveIndexBuffer selected.buffersById selected.draw = some idxBuf)
    (hiw : bytesPerComponent selected.draw.indexTypeEnum = .ok iw) :
    ∀ e, buildGltf dv selected options = .error e →
      e = Err.rangeError ∨ e = Err.invalidLength := by
  intro e h
  have hposclass : isPositionAttrib posA = true := List.find?_some hpos
  obtain ⟨pw, hpw, hpwpos⟩ := bpc_of_posAttrib posA hposclass
  obtain ⟨ps, hps, hpspos⟩ := getStride_of_posAttrib posA hposclass
  simp only [buildGltf, hpos, hpb, hib, hps, ok_bind, hiw] at h
  cases hlen : uint32ArrayLength selected.draw.count with
  | error e1 =>
    rw [hlen, error_bind] at h
    cases h
    exact Or.inr (uint32ArrayLength_error selected.draw.count _ hlen)
  | ok idxLen =>
  rw [hlen, ok_bind] at h
  cases hraw : loopE (fun i => readScalar dv
      (idxBuf.binOffset + selected.draw.indexOffset + i * iw) selected.draw.indexTypeEnum)
      0 (jsLoopCount selected.draw.count) with
  | error e1 =>
    rw [hraw, error_bind] at h
    cases h
    refine Or.inl (loopE_error_sub _ (fun x => x = Err.rangeError) ?_ _ 0 _ hraw)
    intro i e2 h2
    exact readScalar_error_range dv _ _ iw hiw _ h2
  | ok rawIdx =>
  rw [hraw, ok_bind] at h
  cases hvc : posVertexCountE posBuf.byteLength posA.offset ps with
  | error e1 =>
    rw [hvc, error_bind] at h
    cases h
    exact Or.inr (posVertexCountE_error posBuf.byteLength posA.offset ps _ hvc)
  | ok vc =>
  rw [hvc, ok_bind, hpw, ok_bind] at h
  cases hrows : loopE (decodePosVertex dv posA posBuf.binOffset posA.offset ps pw options)
      0 vc with
  | error e1 =>
    rw [hrows, error_bind] at h
    cases h
    refine Or.inl (loopE_error_sub _ (fun x => x = Err.rangeError) ?_ _ 0 _ hrows)
    intro i e2 h2
    exact decodePosVertex_error_sub dv posA posBuf.binOffset posA.offset ps pw options
      hpw i _ h2
  | ok posRows =>
  rw [hrows, ok_bind] at h
  cases hnc : decodeChannel true dv selected.buffersById
      (findNormalAttrib (sortAttribs selected.draw.attribs)) vc 3 with
  | error e1 =>
    rw [hnc, error_bind] at h
    cases h
    exact decodeChannel_error_sub true dv selected.buffersById _ vc 3
      (fun a ha => ⟨bpc_of_nrmAttrib a (List.find?_some ha), by
        have := (nrmAttrib_fields a (List.find?_some ha)).1
        omega⟩) _ hnc
  | ok normals =>
  rw [hnc, ok_bind] at h
  cases huc : decodeChannel true dv selected.buffersById
      (findUvAttrib (sortAttribs selected.draw.attribs)) vc 2 with
  | error e1 =>
    rw [huc, error_bind] at h
    cases h
    exact decodeChannel_error_sub true dv selected.buffersById _ vc 2
      (fun a ha => ⟨bpc_of_uvAttrib a (List.find?_some ha), by
        have := (uvAttrib_fields a (List.find?_some ha)).1
        omega⟩) _ huc
  | ok uvs =>
  rw [huc, ok_bind] at h
  cases h

/-- C10: the decoder performs no bounds validation against the raw buffer.
Once the position attribute is classified, its buffer and the index buffer
resolve and the index component type is supported: (1) every failure of the
decode — in particular on inputs whose reads run past the buffer or whose
computed vertex count is negative — is the untyped out-of-range read error or
the invalid-length allocation error, never a `MalformedInput`-style taxonomy
error; and (2) whenever every byte address the decode dereferences (index
reads at `idxBuf.binOffset + indexOffset + i*indexByteWidth` for `i < count`,
per-channel reads at `buf.binOffset + offset + i*stride +
c*componentByteWidth` for each decoded vertex and component) lies within the
raw buffer and the position buffer's byte length is at least the attribute
offset, the decode never returns the out-of-range read error at all. -/
theorem C10_no_out_of_range (dv : DataView) (selected : SelectedDraw)
    (options : DecodeOptions) (posA : Attribute) (posBuf idxBuf : BufferEntry)
    (iw : Nat)
    (hpos : findPositionAttrib (sortAttribs selected.draw.attribs) = some posA)
    (hpb : lookupBuffer selected.buffersById posA.bufferId = some posBuf)
    (hib : resolveIndexBuffer selected.buffersById selected.draw = some idxBuf)
    (hiw : bytesPerComponent selected.draw.indexTypeEnum = .ok iw) :
    (∀ e, buildGltf dv selected options = .error e →
      e = Err.rangeError ∨ e = Err.invalidLength) ∧
    (∀ n : Nat, selected.draw.count = JsNum.fin (n : ℚ) →
      (∀ i < n,
        idxBuf.binOffset + selected.draw.indexOffset + i * iw + iw ≤ dv.byteLength) →
      posA.offset ≤ posBuf.byteLength →
      (∀ s w, getStride posA = .ok s → bytesPerComponent posA.typeEnum = .ok w →
        ∀ i c : Nat, c < 3 →
          (i : Int) < Int.fdiv ((posBuf.byteLength : Int) - (posA.offset : Int)) (s : Int) →
          posBuf.binOffset + posA.offset + i * s + c * w + w ≤ dv.byteLength) →
      (∀ ps a buf s w, getStride posA = .ok ps →
        findNormalAttrib (sortAttribs selected.draw.attribs) = some a →
        lookupBuffer selected.buffersById a.bufferId = some buf →
        getStride a = .ok s → bytesPerComponent a.typeEnum = .ok w →
        ∀ i c : Nat, c < 3 →
          (i : Int) < min
            (((Int.fdiv ((posBuf.byteLength : Int) - (posA.offset : Int)) (ps : Int)).toNat : Int))
            (Int.fdiv ((buf.byteLength : Int) - (a.offset : Int)) (s : Int)) →
          buf.binOffset + a.offset + i * s + c * w + w ≤ dv.byteLength) →
      (∀ ps a buf s w, getStride posA = .ok ps →
        findUvAttrib (sortAttribs selected.draw.attribs) = some a →
        lookupBuffer selected.buffersById a.bufferId = some buf →
        getStride a = .ok s → bytesPerComponent a.typeEnum = .ok w →
        ∀ i c : Nat, c < 2 →
          (i : Int) < min
            (((Int.fdiv ((posBuf.byteLength : Int) - (posA.offset : Int)) (ps : Int)).toNat : Int))
            (Int.fdiv ((buf.byteLength : Int) - (a.offset : Int)) (s : Int)) →
          buf.binOffset + a.offset + i * s + c * w + w ≤ dv.byteLength) →
      buildGltf dv selected options ≠ .error Err.rangeError) :=
  ⟨buildGltf_error_sub dv selected options posA posBuf idxBuf iw hpos hpb hib hiw,
   fun n hcount hidxin hposoff hposin hnrmin huvin =>
     buildGltf_inbounds_no_rangeError dv selected options posA posBuf idxBuf iw n
       hpos hpb hib hiw hcount hidxin hposoff hposin hnrmin huvin⟩

/-- C10 witness: the theorem applied to the concrete capture of the C8
witness — type taxonomy errors are impossible for it, and since all its reads
stay inside its 27-byte buffer, the decode cannot return the out-of-range
error. -/
theorem C10_no_out_of_range_witness :
    (∀ e, buildGltf w8Dv w8Sel w8Opts = .error e →
      e = Err.rangeError ∨ e = Err.invalidLength) ∧
    buildGltf w8Dv w8Sel w8Opts ≠ .error Err.rangeError := by
  have h := C10_no_out_of_range w8Dv w8Sel w8Opts ⟨0, 3, 5123, false, 0, 0, 2⟩ ⟨2, 4, 12⟩
    ⟨1, 0, 4⟩ 2
    (by decide)
    (by decide)
    (by decide)
    rfl
  refine ⟨h.1, h.2 2 (by norm_num [w8Sel, w8Draw]) (by decide) (by decide) ?_ ?_ ?_⟩
  · intro s w hs hw i c hc hlt
    rw [show getStride (⟨0, 3, 5123, false, 0, 0, 2⟩ : Attribute) = .ok 6 from rfl] at hs
    cases hs
    rw [show bytesPerComponent 5123 = .ok 2 from rfl] at hw
    cases hw
    rw [show Int.fdiv ((12 : Nat) - ((0 : Nat) : Int)) ((6 : Nat) : Int) = 2 from by decide]
      at hlt
    show 4 + 0 + i * 6 + c * 2 + 2 ≤ 27
    omega
  · intro ps a buf s w hps ha hlk hs hw i c hc hlt
    rw [show findNormalAttrib (sortAttribs w8Sel.draw.attribs) =
      some ⟨1, 3, 5120, true, 0, 0, 3⟩ from by decide] at ha
    cases ha
    rw [show lookupBuffer w8Sel.buffersById (3 : Int) = some ⟨3, 16, 5⟩ from by decide]
      at hlk
    cases hlk
    rw [show getStride (⟨1, 3, 5120, true, 0, 0, 3⟩ : Attribute) = .ok 3 from rfl] at hs
    cases hs
    rw [show bytesPerComponent 5120 = .ok 1 from rfl] at hw
    cases hw
    rw [show getStride (⟨0, 3, 5123, false, 0, 0, 2⟩ : Attribute) = .ok 6 from rfl] at hps
    cases hps
    rw [show Int.fdiv (((5 : Nat) : Int) - ((0 : Nat) : Int)) ((3 : Nat) : Int) = 1 from
      by decide] at hlt
    show 16 + 0 + i * 3 + c * 1 + 1 ≤ 27
    have : (i : Int) < 1 := lt_of_lt_of_le hlt (by norm_num)
    omega
  · intro ps a buf s w hps ha hlk hs hw i c hc hlt
    rw [show findUvAttrib (sortAttribs w8Sel.draw.attribs) =
      some ⟨2, 2, 5121, true, 0, 0, 4⟩ from by decide] at ha
    cases ha
    rw [show lookupBuffer w8Sel.buffersById (4 : Int) = some ⟨4, 21, 6⟩ from by decide]
      at hlk
    cases hlk
    rw [show getStride (⟨2, 2, 5121, true, 0, 0, 4⟩ : Attribute) = .ok 2 from rfl] at hs
    cases hs
    rw [show bytesPerComponent 5121 = .ok 1 from rfl] at hw
    cases hw
    rw [show getStride (⟨0, 3, 5123, false, 0, 0, 2⟩ : Attribute) = .ok 6 from rfl] at hps
    cases hps
    rw [show Int.fdiv (((6 : Nat) : Int) - ((0 : Nat) : Int)) ((2 : Nat) : Int) = 3 from
      by decide] at hlt
    show 21 + 0 + i * 2 + c * 1 + 1 ≤ 27
    have hi2 : (i : Int) < 2 := lt_of_lt_of_le hlt (by
      rw [show Int.fdiv (((12 : Nat) : Int) - ((0 : Nat) : Int)) ((6 : Nat) : Int) = 2 from
        by decide]
      norm_num)
    omega


/-! ### C9 — the OBJ path re-runs the glTF decode -/

theorem arrayLength_natCast (n : Nat) : arrayLength (JsNum.fin (n : ℚ)) = .ok n := by
  simp [arrayLength, Rat.den_natCast, Rat.num_natCast]

theorem objVertexCountE_eq_posE (len off s : Nat) (hs : s ≠ 0) :
    objVertexCountE len off s = posVertexCountE len off s := by
  simp only [objVertexCountE, posVertexCountE, if_neg hs]

theorem objChannelCountE_eq_chanE (vc len off s : Nat) (hs : s ≠ 0) :
    objChannelCountE vc len off s = channelCountE vc len off s := by
  simp only [objChannelCountE, channelCountE, if_neg hs]

theorem getStride_ne_zero (a : Attribute) (s : Nat)
    (hex : ∃ s0, getStride a = .ok s0 ∧ 0 < s0) (hs : getStride a = .ok s) : s ≠ 0 := by
  obtain ⟨s0, hs0, hp⟩ := hex
  rw [hs] at hs0
  cases hs0
  omega

theorem decodeChannel_alloc_eq (dv : DataView) (bufs : List BufferEntry)
    (attribOpt : Option Attribute) (vc comps : Nat)
    (h : ∀ a s, attribOpt = some a → getStride a = .ok s → s ≠ 0) :
    decodeChannel false dv bufs attribOpt vc comps =
      decodeChannel true dv bufs attribOpt vc comps := by
  cases attribOpt with
  | none => rfl
  | some a =>
    simp only [decodeChannel]
    cases lookupBuffer bufs a.bufferId with
    | none => rfl
    | some buf =>
      cases hs : getStride a with
      | error e => simp only [hs, error_bind]
      | ok s =>
        simp only [hs, ok_bind, reduceIte, Bool.false_eq_true, if_false,
          objChannelCountE_eq_chanE vc buf.byteLength a.offset s (h a s rfl hs)]

theorem buildObjDecode_ok_inv (dv : DataView) (selected : SelectedDraw)
    (options : DecodeOptions) (o : ObjDecoded)
    (hok : buildObjDecode dv selected options = .ok o) :
    ∃ posA posBuf idxBuf idxBpc posStride posVertCount posCompBytes posRows normals uvs
      idxCount rawIdx,
      findPositionAttrib (sortAttribs selected.draw.attribs) = some posA ∧
      lookupBuffer selected.buffersById posA.bufferId = some posBuf ∧
      resolveIndexBuffer selected.buffersById selected.draw = some idxBuf ∧
      bytesPerComponent selected.draw.indexTypeEnum = .ok idxBpc ∧
      getStride posA = .ok posStride ∧
      objVertexCountE posBuf.byteLength posA.offset posStride = .ok posVertCount ∧
      bytesPerComponent posA.typeEnum = .ok posCompBytes ∧
      loopE (decodePosVertex dv posA posBuf.binOffset posA.offset posStride posCompBytes options)
        0 posVertCount = .ok posRows ∧
      decodeChannel false dv selected.buffersById
        (findNormalAttrib (sortAttribs selected.draw.attribs)) posVertCount 3 = .ok normals ∧
      decodeChannel false dv selected.buffersById
        (findUvAttrib (sortAttribs selected.draw.attribs)) posVertCount 2 = .ok uvs ∧
      arrayLength selected.draw.count = .ok idxCount ∧
      loopE (fun i => readScalar dv (idxBuf.binOffset + selected.draw.indexOffset + i * idxBpc)
        selected.draw.indexTypeEnum) 0 idxCount = .ok rawIdx ∧
      o = ⟨rawIdx, posRows.flatten, normals, uvs⟩ := by
  simp only [buildObjDecode] at hok
  cases hpos : findPositionAttrib (sortAttribs selected.draw.attribs) with
  | none => simp only [hpos] at hok; cases hok
  | some posA =>
  simp only [hpos] at hok
  cases hpb : lookupBuffer selected.buffersById posA.bufferId with
  | none => simp only [hpb] at hok; cases hok
  | some posBuf =>
  simp only [hpb] at hok
  cases hib : resolveIndexBuffer selected.buffersById selected.draw with
  | none => simp only [hib] at hok; cases hok
  | some idxBuf =>
  simp only [hib] at hok
  rw [exBind_ok] at hok
  obtain ⟨idxBpc, hbpc, hok⟩ := hok
  rw [exBind_ok] at hok
  obtain ⟨posStride, hstride, hok⟩ := hok
  rw [exBind_ok] at hok
  obtain ⟨posVertCount, hvc, hok⟩ := hok
  rw [exBind_ok] at hok
  obtain ⟨posCompBytes, hpcb, hok⟩ := hok
  rw [exBind_ok] at hok
  obtain ⟨posRows, hrows, hok⟩ := hok
  rw [exBind_ok] at hok
  obtain ⟨normals, hnrm, hok⟩ := hok
  rw [exBind_ok] at hok
  obtain ⟨uvs, huv, hok⟩ := hok
  rw [exBind_ok] at hok
  obtain ⟨idxCount, hcnt, hok⟩ := hok
  rw [exBind_ok] at hok
  obtain ⟨rawIdx, hraw, hok⟩ := hok
  rw [pure_eq_ok, Except.ok.injEq] at hok
  exact ⟨posA, posBuf, idxBuf, idxBpc, posStride, posVertCount, posCompBytes, posRows,
    normals, uvs, idxCount, rawIdx, rfl, hpb, rfl, hbpc, hstride, hvc, hpcb, hrows,
    hnrm, huv, hcnt, hraw, hok.symm⟩

/-- C9 (amended): for a draw call whose vertex count is a natural number (the
well-formed case), the OBJ path's decode and the glTF path's decode succeed on
exactly the same inputs, with equal transformed positions, normals and UVs;
the glTF index array is the OBJ index array passed element-wise through the
`ToUint32` coercion of its `Uint32Array` store, so the two index arrays agree
as numbers only when every raw index value is already a 32-bit unsigned
integer. -/
theorem C9_obj_gltf_refinement (dv : DataView) (selected : SelectedDraw)
    (options : DecodeOptions) (n : Nat)
    (hcount : selected.draw.count = JsNum.fin (n : ℚ)) :
    (∀ o, buildObjDecode dv selected options = .ok o →
      buildGltf dv selected options =
        .ok ⟨o.indices.map jsToUint32, o.vertices, o.normals, o.uvs⟩) ∧
    (∀ g, buildGltf dv selected options = .ok g →
      ∃ o, buildObjDecode dv selected options = .ok o ∧
        g.indices = o.indices.map jsToUint32 ∧ g.positions = o.vertices ∧
        g.normals = o.normals ∧ g.uvs = o.uvs) := by
  have hnrmNe : ∀ a s, findNormalAttrib (sortAttribs selected.draw.attribs) = some a →
      getStride a = .ok s → s ≠ 0 := by
    intro a s ha hs
    have ha2 : (sortAttribs selected.draw.attribs).find? isNormalAttrib = some a := ha
    exact getStride_ne_zero a s (getStride_of_nrmAttrib a (List.find?_some ha2)) hs
  have huvNe : ∀ a s, findUvAttrib (sortAttribs selected.draw.attribs) = some a →
      getStride a = .ok s → s ≠ 0 := by
    intro a s ha hs
    have ha2 : (sortAttribs selected.draw.attribs).find? isUvAttrib = some a := ha
    exact getStride_ne_zero a s (getStride_of_uvAttrib a (List.find?_some ha2)) hs
  constructor
  · intro o hok
    obtain ⟨posA, posBuf, idxBuf, idxBpc, posStride, posVertCount, posCompBytes, posRows,
      normals, uvs, idxCount, rawIdx, hpos, hpb, hib, hbpc, hstride, hvc, hpcb, hrows,
      hnrm, huv, hcnt, hraw, ho⟩ := buildObjDecode_ok_inv dv selected options o hok
    rw [hcount, arrayLength_natCast] at hcnt
    injection hcnt with h
    subst h
    have hclsPos : isPositionAttrib posA = true := by
      have hpos2 : (sortAttribs selected.draw.attribs).find? isPositionAttrib = some posA :=
        hpos
      exact List.find?_some hpos2
    have hSposne : posStride ≠ 0 :=
      getStride_ne_zero posA posStride (getStride_of_posAttrib posA hclsPos) hstride
    have hvc2 : posVertexCountE posBuf.byteLength posA.offset posStride = .ok posVertCount := by
      rw [← objVertexCountE_eq_posE _ _ _ hSposne]
      exact hvc
    have hnrm2 : decodeChannel true dv selected.buffersById
        (findNormalAttrib (sortAttribs selected.draw.attribs)) posVertCount 3 = .ok normals := by
      rw [← decodeChannel_alloc_eq dv selected.buffersById _ posVertCount 3 hnrmNe]
      exact hnrm
    have huv2 : decodeChannel true dv selected.buffersById
        (findUvAttrib (sortAttribs selected.draw.attribs)) posVertCount 2 = .ok uvs := by
      rw [← decodeChannel_alloc_eq dv selected.buffersById _ posVertCount 2 huvNe]
      exact huv
    subst ho
    simp only [buildGltf, hpos, hpb, hib, hstride, hbpc, hcount, uint32ArrayLength_natCast,
      jsLoopCount_natCast, hraw, hvc2, hpcb, hrows, hnrm2, huv2, ok_bind, pure_eq_ok]
    have hlenm : (rawIdx.map jsToUint32).length = n := by
      rw [List.length_map]
      exact loopE_ok_length _ n 0 rawIdx hraw
    rw [← hlenm, List.take_length]
  · intro g hok
    obtain ⟨posA, posBuf, idxBuf, posStride, idxBpc, idxLen, rawIdx, vertexCount, posCompBytes,
      posRows, normals, uvs, hpos, hpb, hib, hstride, hbpc, hlen, hraw, hvc, hpcb, hrows,
      hnrm, huv, hg⟩ := buildGltf_ok_inv dv selected options g hok
    rw [hcount, uint32ArrayLength_natCast] at hlen
    injection hlen with h
    subst h
    rw [hcount, jsLoopCount_natCast] at hraw
    have hclsPos : isPositionAttrib posA = true := by
      have hpos2 : (sortAttribs selected.draw.attribs).find? isPositionAttrib = some posA :=
        hpos
      exact List.find?_some hpos2
    have hSposne : posStride ≠ 0 :=
      getStride_ne_zero posA posStride (getStride_of_posAttrib posA hclsPos) hstride
    have hvcO : objVertexCountE posBuf.byteLength posA.offset posStride = .ok vertexCount := by
      rw [objVertexCountE_eq_posE _ _ _ hSposne]
      exact hvc
    have hnrmO : decodeChannel false dv selected.buffersById
        (findNormalAttrib (sortAttribs selected.draw.attribs)) vertexCount 3 = .ok normals := by
      rw [decodeChannel_alloc_eq dv selected.buffersById _ vertexCount 3 hnrmNe]
      exact hnrm
    have huvO : decodeChannel false dv selected.buffersById
        (findUvAttrib (sortAttribs selected.draw.attribs)) vertexCount 2 = .ok uvs := by
      rw [decodeChannel_alloc_eq dv selected.buffersById _ vertexCount 2 huvNe]
      exact huv
    subst hg
    have hlenm : (rawIdx.map jsToUint32).length = n := by
      rw [List.length_map]
      exact loopE_ok_length _ n 0 rawIdx hraw
    refine ⟨⟨rawIdx, posRows.flatten, normals, uvs⟩, ?_, ?_, rfl, rfl, rfl⟩
    · simp only [buildObjDecode, hpos, hpb, hib, hbpc, hstride, hvcO, hpcb, hrows, hnrmO,
        huvO, hcount, arrayLength_natCast, hraw, ok_bind, pure_eq_ok]
    · show (rawIdx.map jsToUint32).take n = rawIdx.map jsToUint32
      rw [← hlenm, List.take_length]

def cex9PosA : Attribute := ⟨0, 3, 5126, false, 0, 0, 2⟩

def cex9Draw : DrawCall := ⟨"drawElements", 4, JsNum.fin 1, 5122, 0, some 1, [cex9PosA]⟩

def cex9Sel : SelectedDraw := ⟨cex9Draw, [⟨1, 0, 2⟩, ⟨2, 2, 0⟩]⟩

def cex9Dv : DataView := ⟨2, fun addr => [255, 255].getD addr 0⟩

def cex9Opts : DecodeOptions := ⟨1, 0, 0, 0, false, false⟩

theorem cex9IdxRead : loopE (fun i => readScalar cex9Dv (i * 2) 5122) 0 1 =
    .ok [(-1 : ℚ)] := by
  norm_num [loopE, readScalar, checkedRead, leWord, DataView.byte, cex9Dv, toSigned,
    ok_bind, bind, Except.bind, pure, Except.pure]

theorem cex9U32Len : uint32ArrayLength (JsNum.fin 1) = .ok 1 := by
  rw [show (JsNum.fin 1) = JsNum.fin ((1 : Nat) : ℚ) by norm_num]
  exact uint32ArrayLength_natCast 1

theorem cex9LoopCnt : jsLoopCount (JsNum.fin 1) = 1 := by
  rw [show (JsNum.fin 1) = JsNum.fin ((1 : Nat) : ℚ) by norm_num]
  exact jsLoopCount_natCast 1

theorem cex9ArrLen : arrayLength (JsNum.fin 1) = .ok 1 := by
  rw [show (JsNum.fin 1) = JsNum.fin ((1 : Nat) : ℚ) by norm_num]
  exact arrayLength_natCast 1

theorem jsToUint32_negOne : jsToUint32 (-1) = 4294967295 := by
  norm_num [jsToUint32]
  decide

theorem cex9G_eval : buildGltf cex9Dv cex9Sel cex9Opts =
    .ok ⟨[4294967295], [], none, none⟩ := by
  have hsort : sortAttribs [(⟨0, 3, 5126, false, 0, 0, 2⟩ : Attribute)] =
      [⟨0, 3, 5126, false, 0, 0, 2⟩] := by decide
  have hfp : findPositionAttrib [(⟨0, 3, 5126, false, 0, 0, 2⟩ : Attribute)] =
      some ⟨0, 3, 5126, false, 0, 0, 2⟩ := by decide
  have hfn : findNormalAttrib [(⟨0, 3, 5126, false, 0, 0, 2⟩ : Attribute)] = none := by decide
  have hfu : findUvAttrib [(⟨0, 3, 5126, false, 0, 0, 2⟩ : Attribute)] = none := by decide
  have hlk : lookupBuffer [(⟨1, 0, 2⟩ : BufferEntry), ⟨2, 2, 0⟩] 2 = some ⟨2, 2, 0⟩ := by
    decide
  have hri : resolveIndexBuffer [(⟨1, 0, 2⟩ : BufferEntry), ⟨2, 2, 0⟩]
      ⟨"drawElements", 4, JsNum.fin 1, 5122, 0, some 1, [⟨0, 3, 5126, false, 0, 0, 2⟩]⟩ =
      some ⟨1, 0, 2⟩ := by decide
  have hgs : getStride (⟨0, 3, 5126, false, 0, 0, 2⟩ : Attribute) = .ok 12 := rfl
  have hbi : bytesPerComponent 5122 = .ok 2 := rfl
  have hbp : bytesPerComponent 5126 = .ok 4 := rfl
  have hvc : posVertexCountE 0 0 12 = .ok 0 := rfl
  simp only [buildGltf, cex9Sel, cex9Draw, cex9PosA, hsort, hfp, hfn, hfu, hlk, hri, hgs,
    hbi, hbp, hvc, cex9U32Len, cex9LoopCnt, ok_bind, Nat.zero_add, Nat.add_zero]
  simp only [cex9IdxRead, ok_bind]
  simp only [loopE, decodeChannel, ok_bind, pure_eq_ok, Except.ok.injEq]
  norm_num [jsToUint32_negOne]

theorem cex9O_eval : buildObjDecode cex9Dv cex9Sel cex9Opts =
    .ok ⟨[-1], [], none, none⟩ := by
  have hsort : sortAttribs [(⟨0, 3, 5126, false, 0, 0, 2⟩ : Attribute)] =
      [⟨0, 3, 5126, false, 0, 0, 2⟩] := by decide
  have hfp : findPositionAttrib [(⟨0, 3, 5126, false, 0, 0, 2⟩ : Attribute)] =
      some ⟨0, 3, 5126, false, 0, 0, 2⟩ := by decide
  have hfn : findNormalAttrib [(⟨0, 3, 5126, false, 0, 0, 2⟩ : Attribute)] = none := by decide
  have hfu : findUvAttrib [(⟨0, 3, 5126, false, 0, 0, 2⟩ : Attribute)] = none := by decide
  have hlk : lookupBuffer [(⟨1, 0, 2⟩ : BufferEntry), ⟨2, 2, 0⟩] 2 = some ⟨2, 2, 0⟩ := by
    decide
  have hri : resolveIndexBuffer [(⟨1, 0, 2⟩ : BufferEntry), ⟨2, 2, 0⟩]
      ⟨"drawElements", 4, JsNum.fin 1, 5122, 0, some 1, [⟨0, 3, 5126, false, 0, 0, 2⟩]⟩ =
      some ⟨1, 0, 2⟩ := by decide
  have hgs : getStride (⟨0, 3, 5126, false, 0, 0, 2⟩ : Attribute) = .ok 12 := rfl
  have hbi : bytesPerComponent 5122 = .ok 2 := rfl
  have hbp : bytesPerComponent 5126 = .ok 4 := rfl
  have hvc : objVertexCountE 0 0 12 = .ok 0 := rfl
  simp only [buildObjDecode, cex9Sel, cex9Draw, cex9PosA, hsort, hfp, hfn, hfu, hlk, hri,
    hgs, hbi, hbp, hvc, cex9ArrLen, ok_bind, Nat.zero_add, Nat.add_zero]
  simp only [cex9IdxRead, ok_bind]
  simp only [loopE, decodeChannel, ok_bind, pure_eq_ok, Except.ok.injEq]
  rfl

/-- C9 counterexample: a capture whose index buffer holds the signed 16-bit
value `-1` (bytes `FF FF`, component type 5122).  Both paths decode it, but
`buildObj` emits the raw index `-1` while `buildGltf` stores it through a
`Uint32Array`, which coerces it to `4294967295` — the emitted index arrays are
not element-for-element equal as the claim states. -/
theorem C9_counterexample :
    buildObjDecode cex9Dv cex9Sel cex9Opts = .ok ⟨[-1], [], none, none⟩ ∧
    buildGltf cex9Dv cex9Sel cex9Opts = .ok ⟨[4294967295], [], none, none⟩ ∧
    ¬ (((4294967295 : Nat) : ℚ) = (-1 : ℚ)) :=
  ⟨cex9O_eval, cex9G_eval, by norm_num⟩

/-- C9 witness: the refinement theorem applied to the concrete signed-index
capture, whose vertex count is the natural number 1. -/
theorem C9_obj_gltf_refinement_witness :
    cex9Sel.draw.count = JsNum.fin ((1 : Nat) : ℚ) ∧
    (∀ o, buildObjDecode cex9Dv cex9Sel cex9Opts = .ok o →
      buildGltf cex9Dv cex9Sel cex9Opts =
        .ok ⟨o.indices.map jsToUint32, o.vertices, o.normals, o.uvs⟩) :=
  ⟨by norm_num [cex9Sel, cex9Draw],
    (C9_obj_gltf_refinement cex9Dv cex9Sel cex9Opts 1
      (by norm_num [cex9Sel, cex9Draw])).1⟩
